import Mathlib

/-!
# Nachos file header (`code/filesys/filehdr.cc`): three-tier block addressing

A shallow embedding of `FileHeader::Allocate`, `Deallocate`, `ByteToSector`,
`FetchFrom`, `WriteBack` and `FileLength`.

* C++ `int` values (byte counts, sector numbers, the result of `Find`) are `Int`.
* An array `int a[n]` is a `List Int` used together with its declared size `n`;
  an access with an index outside `0 .. n-1` is undefined behaviour in C++ and is
  reported as `Fault.outOfBounds`.
* A failed `ASSERT` is reported as `Fault.assertion`.
* The constants `SectorSize` and `NumDirect` of `filehdr.h` / `disk.h` are the
  parameters `S` and `ND` of every definition.
* Local arrays are not initialised by the C++ code; their slots start as `0` here.
  Only slots that have been written are used by the results below.
-/

namespace Nachos

/-- Fatal outcomes: a failed `ASSERT`, or an array access outside the array. -/
inductive Fault where
  | assertion
  | outOfBounds
  deriving DecidableEq, Repr

/-! ## External collaborators -/

/-- Modelled from the spec: the Free-Block Map (`BitMap`, not part of `filehdr.cc`).
One bit per block, `true` meaning "in use". -/
abbrev BitMap := List Bool

/-- Modelled from the spec: index of the first clear bit, or the number of bits when
every bit is set. -/
def firstClear : List Bool → Nat
  | [] => 0
  | b :: bs => if b = false then 0 else firstClear bs + 1

/-- Modelled from the spec: `CountFree()`, called `NumClear()` by the code. -/
def BitMap.NumClear (m : BitMap) : Int := (m.count false : Nat)

/-- Modelled from the spec: `FindAndMark()`, called `Find()` by the code. It hands out
the lowest-numbered free block and marks it; "none" is the value `-1`, which is what the
code stores when no block is free. -/
def BitMap.Find (m : BitMap) : Int × BitMap :=
  if firstClear m < m.length then ((firstClear m : Nat), m.set (firstClear m) true)
  else (-1, m)

/-- Modelled from the spec: `Test(blockNumber)`; a block number outside the map is an
out-of-range access, a fatal consistency violation. -/
def BitMap.Test (m : BitMap) (which : Int) : Except Fault Bool :=
  if 0 ≤ which ∧ which < (m.length : Int) then .ok (m.getD which.toNat false)
  else .error .assertion

/-- Modelled from the spec: `Clear(blockNumber)` marks a block free. -/
def BitMap.Clear (m : BitMap) (which : Int) : Except Fault BitMap :=
  if 0 ≤ which ∧ which < (m.length : Int) then .ok (m.set which.toNat false)
  else .error .assertion

/-- Modelled from the spec: the Block Device (`SynchDisk`, not part of `filehdr.cc`).
A block holds `NumDirect + 2` integers; the device maps a block number to its contents. -/
abbrev Disk := Int → List Int

/-- Modelled from the spec: `ReadBlock(number)`, called `ReadSector` by the code. -/
def ReadSector (d : Disk) (sector : Int) : List Int := d sector

/-- Modelled from the spec: `WriteBlock(number, bytes)`, called `WriteSector` by the code. -/
def WriteSector (d : Disk) (sector : Int) (data : List Int) : Disk :=
  Function.update d sector data

/-- Modelled from the spec: `ceil(n / s)`, the `divRoundUp(n, s)` of the code, written
with C++ integer division. -/
def divRoundUp (n s : Int) : Int :=
  Int.tdiv n s + (if Int.tmod n s > 0 then 1 else 0)

/-! ## Constants -/

/-- Modelled from the spec: `PointersPerIndexBlock = NumDirect + 2`. -/
def PointersPerIndexBlock (ND : Nat) : Nat := ND + 2

/-- Modelled from the spec: `MaxFileSize = NumDirect * S`. -/
def MaxFileSize (ND S : Nat) : Int := (ND : Int) * S

/-- Modelled from the spec:
`MaxFileSize2 = (NumDirect-1)*S + PointersPerIndexBlock*S`. -/
def MaxFileSize2 (ND S : Nat) : Int :=
  ((ND : Int) - 1) * S + (PointersPerIndexBlock ND : Int) * S

/-- Modelled from the spec:
`MaxFileSize3 = (NumDirect-2)*S + PointersPerIndexBlock*S + PointersPerIndexBlock²*S`. -/
def MaxFileSize3 (ND S : Nat) : Int :=
  ((ND : Int) - 2) * S + (PointersPerIndexBlock ND : Int) * S
    + (PointersPerIndexBlock ND : Int) * (PointersPerIndexBlock ND : Int) * S

/-! ## The header record -/

/-- The file header: `numBytes`, `numSectors` and the table `dataSectors[NumDirect]`. -/
structure FileHeader where
  numBytes : Int
  numSectors : Int
  dataSectors : List Int
  deriving DecidableEq, Repr

/-- Read `a[i]` from an array declared with `size` entries. -/
def readAt (size : Nat) (a : List Int) (i : Int) : Except Fault Int :=
  if 0 ≤ i ∧ i < (size : Int) then .ok (a.getD i.toNat 0) else .error .outOfBounds

/-- The loop `for (i = i0; i < i0 + n; i++) a[i] = freeMap->Find();` on an array
declared with `size` entries. -/
def findLoop (size : Nat) : Nat → Nat → List Int → BitMap → Except Fault (List Int × BitMap)
  | 0, _, a, m => .ok (a, m)
  | n + 1, i, a, m =>
    if i < size then findLoop size n (i + 1) (a.set i m.Find.1) m.Find.2
    else .error .outOfBounds

/-- The loop `for (i = i0; i < i0 + n; i++) a[i] = 0;`. -/
def zeroLoop (size : Nat) : Nat → Nat → List Int → Except Fault (List Int)
  | 0, _, a => .ok a
  | n + 1, i, a =>
    if i < size then zeroLoop size n (i + 1) (a.set i 0) else .error .outOfBounds

/-- The Tier-3 loops that also advance `counter`:
`for (i = i0; i < i0 + n; i++) { a[i] = freeMap->Find(); if (bump i) counter++; }`. -/
def findCountLoop (size : Nat) (bump : Nat → Bool) :
    Nat → Nat → List Int → BitMap → Int → Except Fault (List Int × BitMap × Int)
  | 0, _, a, m, c => .ok (a, m, c)
  | n + 1, i, a, m, c =>
    if i < size then
      findCountLoop size bump n (i + 1) (a.set i m.Find.1) m.Find.2 (if bump i then c + 1 else c)
    else .error .outOfBounds

/-- The inner Tier-3 loop of `Allocate`:
`for (j = j0; counter < numSectors && j < NumDirect + 2; j++, counter++) sectors[j] = Find();`.
The first argument bounds the number of iterations (`NumDirect + 2 - j0` suffices). -/
def allocInner (ND : Nat) (numSectors : Int) :
    Nat → Nat → List Int → BitMap → Int → List Int × BitMap × Int
  | 0, _, sectors, m, c => (sectors, m, c)
  | k + 1, j, sectors, m, c =>
    if c < numSectors ∧ j < ND + 2 then
      allocInner ND numSectors k (j + 1) (sectors.set j m.Find.1) m.Find.2 (c + 1)
    else (sectors, m, c)

/-- The outer Tier-3 loop of `Allocate`:
`for (i = i0; counter < numSectors; i++) { dataSectors3[i] = Find(); ...inner loop...;
WriteSector(dataSectors3[i], sectors); }`.
Every iteration advances `counter`, so `numSectors - counter` iterations suffice; the
first argument is that bound. -/
def allocOuter (ND : Nat) (numSectors : Int) :
    Nat → Nat → List Int → BitMap → Disk → Int → Except Fault (List Int × BitMap × Disk × Int)
  | 0, _, top, m, d, c => .ok (top, m, d, c)
  | f + 1, i, top, m, d, c =>
    if c < numSectors then
      if i < ND + 2 then
        let r := allocInner ND numSectors (ND + 2) 0 (List.replicate (ND + 2) 0) m.Find.2 c
        allocOuter ND numSectors f (i + 1) (top.set i m.Find.1) r.2.1
          (WriteSector d m.Find.1 r.1) r.2.2
      else .error .outOfBounds
    else .ok (top, m, d, c)

/-- `FileHeader::Allocate(freeMap, fileSize)`. The result is the returned flag together
with the header, the free map and the disk after the call. -/
def Allocate (ND S : Nat) (hdr : FileHeader) (freeMap : BitMap) (disk : Disk) (fileSize : Int) :
    Except Fault (Bool × FileHeader × BitMap × Disk) :=
  let numBytes := fileSize
  let numSectors := divRoundUp fileSize S
  if freeMap.NumClear < numSectors then
    .ok (false, { hdr with numBytes := numBytes, numSectors := numSectors }, freeMap, disk)
  else
    match zeroLoop ND ND 0 hdr.dataSectors with
    | .error e => .error e
    | .ok table0 =>
      if numBytes ≤ MaxFileSize ND S then
        match findLoop ND numSectors.toNat 0 table0 freeMap with
        | .error e => .error e
        | .ok (table, m) => .ok (true, ⟨numBytes, numSectors, table⟩, m, disk)
      else if numBytes ≤ MaxFileSize2 ND S then
        match findLoop ND ND 0 table0 freeMap with
        | .error e => .error e
        | .ok (table, m1) =>
          match findLoop (ND + 2) (numSectors - ((ND : Int) - 2)).toNat 0
              (List.replicate (ND + 2) 0) m1 with
          | .error e => .error e
          | .ok (dataSectors2, m2) =>
            match readAt ND table ((ND : Int) - 1) with
            | .error e => .error e
            | .ok s => .ok (true, ⟨numBytes, numSectors, table⟩, m2, WriteSector disk s dataSectors2)
      else if numBytes ≤ MaxFileSize3 ND S then
        match findCountLoop ND (fun i => decide ((i : Int) < (ND : Int) - 2)) ND 0 table0 freeMap 0 with
        | .error e => .error e
        | .ok (table, m1, c1) =>
          match findCountLoop (ND + 2) (fun _ => true) (ND + 2) 0 (List.replicate (ND + 2) 0) m1 c1 with
          | .error e => .error e
          | .ok (dataSectors2, m2, c2) =>
            match readAt ND table ((ND : Int) - 2) with
            | .error e => .error e
            | .ok s2 =>
              match allocOuter ND numSectors (numSectors - c2).toNat 0
                  (List.replicate (ND + 2) 0) m2 (WriteSector disk s2 dataSectors2) c2 with
              | .error e => .error e
              | .ok (dataSectors3, m3, d3, _) =>
                match readAt ND table ((ND : Int) - 1) with
                | .error e => .error e
                | .ok s3 =>
                  .ok (true, ⟨numBytes, numSectors, table⟩, m3, WriteSector d3 s3 dataSectors3)
      else .ok (false, ⟨numBytes, numSectors, table0⟩, freeMap, disk)

/-- `ASSERT(freeMap->Test(b)); freeMap->Clear(b);`. -/
def release (m : BitMap) (b : Int) : Except Fault BitMap :=
  match m.Test b with
  | .error e => .error e
  | .ok t => if t then m.Clear b else .error .assertion

/-- The loop `for (i = i0; i < i0 + n; i++) { ASSERT(Test(a[i])); Clear(a[i]); }` over an
array declared with `size` entries. -/
def clearLoop (size : Nat) (a : List Int) : Nat → Nat → BitMap → Except Fault BitMap
  | 0, _, m => .ok m
  | n + 1, i, m =>
    match readAt size a i with
    | .error e => .error e
    | .ok b =>
      match release m b with
      | .error e => .error e
      | .ok m1 => clearLoop size a n (i + 1) m1

/-- The inner Tier-3 loop of `Deallocate`:
`for (j = j0; j < NumDirect + 2 && counter < numSectors; j++) { ASSERT; Clear; counter++; }`. -/
def deallocInner (ND : Nat) (numSectors : Int) (sectors : List Int) :
    Nat → Nat → BitMap → Int → Except Fault (BitMap × Int)
  | 0, _, m, c => .ok (m, c)
  | k + 1, j, m, c =>
    if j < ND + 2 ∧ c < numSectors then
      match release m (sectors.getD j 0) with
      | .error e => .error e
      | .ok m1 => deallocInner ND numSectors sectors k (j + 1) m1 (c + 1)
    else .ok (m, c)

/-- The outer Tier-3 loop of `Deallocate`:
`for (i = i0; counter < numSectors; i++) { ReadSector(dataSectors3[i], sectors); ...inner
loop...; ASSERT(Test(dataSectors3[i])); Clear(dataSectors3[i]); }`.
Every iteration advances `counter`; the first argument bounds the iterations. -/
def deallocOuter (ND : Nat) (numSectors : Int) (d : Disk) (top : List Int) :
    Nat → Nat → BitMap → Int → Except Fault (BitMap × Int)
  | 0, _, m, c => .ok (m, c)
  | f + 1, i, m, c =>
    if c < numSectors then
      match readAt (ND + 2) top i with
      | .error e => .error e
      | .ok leaf =>
        match deallocInner ND numSectors (ReadSector d leaf) (ND + 2) 0 m c with
        | .error e => .error e
        | .ok (m1, c1) =>
          match release m1 leaf with
          | .error e => .error e
          | .ok m2 => deallocOuter ND numSectors d top f (i + 1) m2 c1
    else .ok (m, c)

/-- `FileHeader::Deallocate(freeMap)`: the free map after the call, or the fault that
stopped it. -/
def Deallocate (ND S : Nat) (hdr : FileHeader) (freeMap : BitMap) (disk : Disk) :
    Except Fault BitMap :=
  if hdr.numBytes ≤ MaxFileSize ND S then
    clearLoop ND hdr.dataSectors hdr.numSectors.toNat 0 freeMap
  else if hdr.numBytes ≤ MaxFileSize2 ND S then
    match readAt ND hdr.dataSectors ((ND : Int) - 1) with
    | .error e => .error e
    | .ok s =>
      match clearLoop (ND + 2) (ReadSector disk s)
          (hdr.numSectors - ((ND : Int) - 1)).toNat 0 freeMap with
      | .error e => .error e
      | .ok m1 => clearLoop ND hdr.dataSectors ND 0 m1
  else
    match readAt ND hdr.dataSectors ((ND : Int) - 2) with
    | .error e => .error e
    | .ok s2 =>
      match readAt ND hdr.dataSectors ((ND : Int) - 1) with
      | .error e => .error e
      | .ok s3 =>
        match deallocOuter ND hdr.numSectors disk (ReadSector disk s3)
            (hdr.numSectors - 2 * (ND : Int)).toNat 0 freeMap (2 * (ND : Int)) with
        | .error e => .error e
        | .ok (m1, _) =>
          match clearLoop (ND + 2) (ReadSector disk s2) (ND + 2) 0 m1 with
          | .error e => .error e
          | .ok m2 => clearLoop ND hdr.dataSectors ND 0 m2

/-- `FileHeader::ByteToSector(offset)`. -/
def ByteToSector (ND S : Nat) (hdr : FileHeader) (disk : Disk) (offset : Int) :
    Except Fault Int :=
  let sector := Int.tdiv offset S
  if hdr.numBytes ≤ MaxFileSize ND S then
    readAt ND hdr.dataSectors sector
  else if hdr.numBytes ≤ MaxFileSize2 ND S then
    if sector < (ND : Int) - 1 then readAt ND hdr.dataSectors sector
    else
      match readAt ND hdr.dataSectors ((ND : Int) - 1) with
      | .error e => .error e
      | .ok s => readAt (ND + 2) (ReadSector disk s) (sector - ((ND : Int) - 1))
  else
    if sector < (ND : Int) - 2 then readAt ND hdr.dataSectors sector
    else if sector < 2 * (ND : Int) then
      match readAt ND hdr.dataSectors ((ND : Int) - 2) with
      | .error e => .error e
      | .ok s => readAt (ND + 2) (ReadSector disk s) (sector - ((ND : Int) - 2))
    else
      match readAt ND hdr.dataSectors ((ND : Int) - 1) with
      | .error e => .error e
      | .ok s3 =>
        match readAt (ND + 2) (ReadSector disk s3)
            (Int.tdiv (sector - 2 * (ND : Int)) ((ND : Int) + 2)) with
        | .error e => .error e
        | .ok leaf =>
          readAt (ND + 2) (ReadSector disk leaf) (Int.tmod (sector - 2 * (ND : Int)) ((ND : Int) + 2))

/-- `FileHeader::FileLength()`. -/
def FileLength (hdr : FileHeader) : Int := hdr.numBytes

/-- The raw contents of the header object: `numBytes`, `numSectors`, then the table. -/
def headerWords (hdr : FileHeader) : List Int :=
  hdr.numBytes :: hdr.numSectors :: hdr.dataSectors

/-- `FileHeader::WriteBack(sector)`: `WriteSector(sector, (char *)this)`. -/
def WriteBack (hdr : FileHeader) (disk : Disk) (sector : Int) : Disk :=
  WriteSector disk sector (headerWords hdr)

/-- `FileHeader::FetchFrom(sector)`: `ReadSector(sector, (char *)this)` overwrites the
header object with the block's contents. -/
def FetchFrom (ND : Nat) (disk : Disk) (sector : Int) : FileHeader :=
  let w := ReadSector disk sector
  ⟨w.getD 0 0, w.getD 1 0, (w.drop 2).take ND⟩

/-! ## Vocabulary of the proofs -/

/-- Block `b` is a block of the map and is marked in use. -/
def Used (m : BitMap) (b : Int) : Prop := 0 ≤ b ∧ m[b.toNat]? = some true

/-- Block `b` is a block of the map and is marked free. -/
def Free (m : BitMap) (b : Int) : Prop := 0 ≤ b ∧ m[b.toNat]? = some false

/-- Every block of `xs` is in use and none is listed twice. -/
def Owned (m : BitMap) (xs : List Int) : Prop := xs.Nodup ∧ ∀ x ∈ xs, Used m x

/-- The blocks handed out by `n` successive calls of `Find`, and the map afterwards. -/
def finds : Nat → BitMap → List Int × BitMap
  | 0, m => ([], m)
  | n + 1, m => (m.Find.1 :: (finds n m.Find.2).1, (finds n m.Find.2).2)

/-- How often `counter` is advanced by `n` iterations of `findCountLoop` from index `i`. -/
def countBumps (bump : Nat → Bool) : Nat → Nat → Int
  | 0, _ => 0
  | n + 1, i => (if bump i then 1 else 0) + countBumps bump n (i + 1)

/-- The statement `ASSERT(Test(b)); Clear(b);` run for each block of a list in turn. -/
def clearList : List Int → BitMap → Except Fault BitMap
  | [], m => .ok m
  | b :: bs, m =>
    match release m b with
    | .error e => .error e
    | .ok m1 => clearList bs m1

/-- The address translation of the specification (section 4.4), written with the
constants of the data model: `sector = offset / S`, then the tier rules. A record whose
`numBytes` lies above `MaxFileSize3` belongs to no tier. -/
def specByteToSector (ND S : Nat) (hdr : FileHeader) (disk : Disk) (offset : Int) :
    Except Fault Int :=
  let sector := offset / (S : Int)
  let P : Int := PointersPerIndexBlock ND
  if hdr.numBytes ≤ MaxFileSize ND S then
    readAt ND hdr.dataSectors sector
  else if hdr.numBytes ≤ MaxFileSize2 ND S then
    if sector < (ND : Int) - 1 then readAt ND hdr.dataSectors sector
    else
      match readAt ND hdr.dataSectors ((ND : Int) - 1) with
      | .error e => .error e
      | .ok leaf => readAt (PointersPerIndexBlock ND) (ReadSector disk leaf) (sector - ((ND : Int) - 1))
  else if hdr.numBytes ≤ MaxFileSize3 ND S then
    if sector < (ND : Int) - 2 then readAt ND hdr.dataSectors sector
    else if sector < (ND : Int) - 2 + P then
      match readAt ND hdr.dataSectors ((ND : Int) - 2) with
      | .error e => .error e
      | .ok leaf => readAt (PointersPerIndexBlock ND) (ReadSector disk leaf) (sector - ((ND : Int) - 2))
    else
      match readAt ND hdr.dataSectors ((ND : Int) - 1) with
      | .error e => .error e
      | .ok top =>
        match readAt (PointersPerIndexBlock ND) (ReadSector disk top)
            ((sector - ((ND : Int) - 2 + P)) / P) with
        | .error e => .error e
        | .ok leaf =>
          readAt (PointersPerIndexBlock ND) (ReadSector disk leaf)
            ((sector - ((ND : Int) - 2 + P)) % P)
  else .error .assertion

/-- The leaf groups built by the outer Tier-3 loop from `counter = c`: each group is a
leaf index block together with the data blocks it lists; a group lists
`min (NumDirect + 2) (numSectors - counter)` data blocks. -/
def Groups (ND : Nat) (ns : Int) : Int → List (Int × List Int) → Prop
  | c, [] => ns ≤ c
  | c, g :: G =>
    c < ns ∧ (g.2.length : Int) = min ((ND : Int) + 2) (ns - c) ∧
      Groups ND ns (c + (g.2.length : Int)) G

/-- The blocks of the leaf groups in the order `Deallocate` releases them. -/
def groupBlocks (G : List (Int × List Int)) : List Int :=
  G.flatMap (fun g => g.2 ++ [g.1])

/-- The data blocks of the leaf groups in logical order. -/
def groupData (G : List (Int × List Int)) : List Int :=
  G.flatMap (fun g => g.2)

/-- The index-block overhead named by the specification: 0 in Tier 1, 1 in Tier 2,
`2 + ceil((numSectors - (NumDirect-2) - PointersPerIndexBlock) / PointersPerIndexBlock)`
in Tier 3. -/
def indexOverhead (ND S : Nat) (fileSize : Int) : Int :=
  if fileSize ≤ MaxFileSize ND S then 0
  else if fileSize ≤ MaxFileSize2 ND S then 1
  else 2 + divRoundUp
    (divRoundUp fileSize S - ((ND : Int) - 2) - (PointersPerIndexBlock ND : Int))
    (PointersPerIndexBlock ND : Int)

/-- The number of free blocks the specification asks for: the data blocks plus the
index-block overhead of the tier. -/
def blocksRequired (ND S : Nat) (fileSize : Int) : Int :=
  divRoundUp fileSize S + indexOverhead ND S fileSize

/-- The state left by an allocation, described by three lists: `data`, the data blocks in
logical order; `idx`, the index blocks; `order`, all of them in the order `Deallocate`
releases them. -/
def IsLayout (ND S : Nat) (hdr : FileHeader) (m : BitMap) (d : Disk)
    (data idx order : List Int) : Prop :=
  (∀ offset : Int, 0 ≤ offset → offset < hdr.numBytes →
      (Int.tdiv offset S).toNat < data.length ∧
      ByteToSector ND S hdr d offset = .ok (data.getD (Int.tdiv offset S).toNat 0)) ∧
  (data.length : Int) = hdr.numSectors ∧
  order.Perm (data ++ idx) ∧
  Owned m (data ++ idx) ∧
  Deallocate ND S hdr m d = clearList order m ∧
  (MaxFileSize ND S < hdr.numBytes → hdr.numBytes ≤ MaxFileSize2 ND S →
      ∃ b, readAt ND hdr.dataSectors ((ND : Int) - 1) = .ok b ∧ b ∈ idx) ∧
  (MaxFileSize2 ND S < hdr.numBytes →
      (∃ b, readAt ND hdr.dataSectors ((ND : Int) - 2) = .ok b ∧ b ∈ idx) ∧
      (∃ b, readAt ND hdr.dataSectors ((ND : Int) - 1) = .ok b ∧ b ∈ idx ∧
        ∀ g : Int, 0 ≤ g → g * ((ND : Int) + 2) < hdr.numSectors - 2 * (ND : Int) →
          ∃ leaf, readAt (ND + 2) (ReadSector d b) g = .ok leaf ∧ leaf ∈ idx))

/-! # Properties -/

/-! ## The free map -/


theorem firstClear_le (m : List Bool) : firstClear m ≤ m.length := by
  induction m with
  | nil => simp [firstClear]
  | cons b bs ih => cases b <;> simp [firstClear, ih]

theorem firstClear_get (m : List Bool) (h : firstClear m < m.length) :
    m[firstClear m]? = some false := by
  induction m with
  | nil => simp at h
  | cons b bs ih =>
    cases b
    · simp [firstClear]
    · simp [firstClear] at h ⊢
      exact ih h

theorem firstClear_eq_length (m : List Bool) (h : ¬ firstClear m < m.length) :
    m.count false = 0 := by
  induction m with
  | nil => simp
  | cons b bs ih =>
    cases b
    · simp [firstClear] at h
    · simp [firstClear] at h ⊢
      exact ih (by omega)

theorem count_false_set_true (m : List Bool) (i : Nat) (h : m[i]? = some false) :
    (m.set i true).count false + 1 = m.count false := by
  induction m generalizing i with
  | nil => simp at h
  | cons b bs ih =>
    cases i with
    | zero =>
      simp at h
      subst h
      simp
    | succ j =>
      simp at h
      have := ih j h
      cases b <;> simp [List.count_cons] <;> omega

theorem count_false_set_false (m : List Bool) (i : Nat) (h : m[i]? = some true) :
    (m.set i false).count false = m.count false + 1 := by
  induction m generalizing i with
  | nil => simp at h
  | cons b bs ih =>
    cases i with
    | zero =>
      simp at h
      subst h
      simp
    | succ j =>
      simp at h
      have := ih j h
      cases b <;> simp [List.count_cons] <;> omega

theorem NumClear_nonneg (m : BitMap) : 0 ≤ m.NumClear := by
  unfold BitMap.NumClear; omega

theorem Find_of_pos (m : BitMap) (h : 0 < m.NumClear) :
    ∃ k : Nat, k < m.length ∧ m[k]? = some false ∧ m.Find = ((k : Int), m.set k true) := by
  have hlt : firstClear m < m.length := by
    by_contra hc
    have := firstClear_eq_length m hc
    unfold BitMap.NumClear at h
    omega
  exact ⟨firstClear m, hlt, firstClear_get m hlt, by simp [BitMap.Find, hlt]⟩

theorem Find_of_none (m : BitMap) (h : m.NumClear ≤ 0) : m.Find = (-1, m) := by
  have hge : ¬ firstClear m < m.length := by
    intro hlt
    have h1 := count_false_set_true m _ (firstClear_get m hlt)
    unfold BitMap.NumClear at h
    omega
  simp [BitMap.Find, hge]

theorem Find_length (m : BitMap) : m.Find.2.length = m.length := by
  unfold BitMap.Find
  split <;> simp

theorem NumClear_Find (m : BitMap) (h : 0 < m.NumClear) :
    m.Find.2.NumClear = m.NumClear - 1 := by
  obtain ⟨k, _, hk, hF⟩ := Find_of_pos m h
  have := count_false_set_true m k hk
  rw [hF]
  unfold BitMap.NumClear
  simp only
  omega

theorem Used_set_true (m : BitMap) (i : Nat) (x : Int) (h : Used m x) :
    Used (m.set i true) x := by
  obtain ⟨h0, h1⟩ := h
  refine ⟨h0, ?_⟩
  rw [List.getElem?_set]
  split
  · next heq =>
    have : i < m.length := by
      by_contra hc
      rw [← heq, List.getElem?_eq_none (by omega)] at h1
      simp at h1
    simp [this]
  · exact h1

theorem Used_Find (m : BitMap) (x : Int) (h : Used m x) : Used m.Find.2 x := by
  unfold BitMap.Find
  split
  · exact Used_set_true m _ x h
  · exact h

theorem Find_fresh (m : BitMap) (h : 0 < m.NumClear) :
    Free m m.Find.1 ∧ Used m.Find.2 m.Find.1 := by
  obtain ⟨k, hlt, hk, hF⟩ := Find_of_pos m h
  rw [hF]
  refine ⟨⟨by simp, by simpa using hk⟩, ⟨by simp, ?_⟩⟩
  simp [List.getElem?_set, hlt]

theorem Free_not_Used (m : BitMap) (x : Int) (hf : Free m x) : ¬ Used m x := by
  intro hu
  have := hf.2.symm.trans hu.2
  simp at this


theorem Owned_perm {m : BitMap} {xs ys : List Int} (hp : xs.Perm ys) (h : Owned m xs) :
    Owned m ys :=
  ⟨hp.nodup_iff.mp h.1, fun x hx => h.2 x (hp.mem_iff.mpr hx)⟩

theorem Owned_Find (m : BitMap) (xs : List Int) (h : 0 < m.NumClear) (ho : Owned m xs) :
    Owned m.Find.2 (m.Find.1 :: xs) := by
  obtain ⟨hfree, hused⟩ := Find_fresh m h
  refine ⟨List.nodup_cons.mpr ⟨fun hmem => Free_not_Used m _ hfree (ho.2 _ hmem), ho.1⟩, ?_⟩
  intro x hx
  rcases List.mem_cons.mp hx with rfl | hx
  · exact hused
  · exact Used_Find m x (ho.2 x hx)


theorem finds_length (n : Nat) (m : BitMap) : (finds n m).1.length = n := by
  induction n generalizing m with
  | zero => rfl
  | succ n ih => simp [finds, ih]

theorem finds_map_length (n : Nat) (m : BitMap) : (finds n m).2.length = m.length := by
  induction n generalizing m with
  | zero => rfl
  | succ n ih => simp [finds, ih, Find_length]

theorem Used_finds (n : Nat) (m : BitMap) (x : Int) (h : Used m x) : Used (finds n m).2 x := by
  induction n generalizing m with
  | zero => exact h
  | succ n ih => exact ih _ (Used_Find m x h)

theorem NumClear_finds (n : Nat) (m : BitMap) (h : (n : Int) ≤ m.NumClear) :
    (finds n m).2.NumClear = m.NumClear - n := by
  induction n generalizing m with
  | zero => simp [finds]
  | succ n ih =>
    have h1 := NumClear_Find m (by omega)
    simp only [finds]
    rw [ih _ (by omega), h1]
    push_cast
    omega

theorem Owned_finds (n : Nat) (m : BitMap) (xs : List Int) (h : (n : Int) ≤ m.NumClear)
    (ho : Owned m xs) : Owned (finds n m).2 ((finds n m).1 ++ xs) := by
  induction n generalizing m xs with
  | zero => simpa [finds] using ho
  | succ n ih =>
    have h1 := NumClear_Find m (by omega)
    have h2 := ih m.Find.2 (m.Find.1 :: xs) (by omega) (Owned_Find m xs (by omega) ho)
    simp only [finds]
    exact Owned_perm List.perm_middle h2

theorem finds_add (a b : Nat) (m : BitMap) :
    finds (a + b) m = ((finds a m).1 ++ (finds b (finds a m).2).1, (finds b (finds a m).2).2) := by
  induction a generalizing m with
  | zero => simp [finds]
  | succ a ih =>
    have : a + 1 + b = (a + b) + 1 := by omega
    rw [this]
    simp [finds, ih]


/-! ## The allocation loops -/

theorem set_middle (pre post : List Int) (x v : Int) :
    (pre ++ x :: post).set pre.length v = (pre ++ [v]) ++ post := by
  induction pre with
  | nil => simp
  | cons p ps ih => simp [ih]

theorem zeroLoop_append (size n : Nat) (pre mid post : List Int) (hmid : mid.length = n)
    (hsz : pre.length + n ≤ size) :
    zeroLoop size n pre.length (pre ++ mid ++ post)
      = .ok (pre ++ List.replicate n 0 ++ post) := by
  induction n generalizing pre mid with
  | zero =>
    have : mid = [] := List.length_eq_zero.mp hmid
    simp [zeroLoop, this]
  | succ n ih =>
    obtain ⟨x, mid1, rfl⟩ := List.exists_cons_of_length_eq_add_one hmid
    have hi : pre.length < size := by omega
    simp only [zeroLoop, hi, if_true]
    have hset : (pre ++ x :: mid1 ++ post).set pre.length 0 = (pre ++ [0]) ++ mid1 ++ post := by
      simp
    have hlen : (pre ++ [(0 : Int)]).length = pre.length + 1 := by simp
    rw [hset, ← hlen, ih (pre ++ [0]) mid1 (by simpa using hmid) (by simp; omega)]
    simp [List.replicate_succ]

theorem zeroLoop_eq (size : Nat) (a : List Int) (ha : a.length = size) :
    zeroLoop size size 0 a = .ok (List.replicate size 0) := by
  have := zeroLoop_append size size [] a [] ha (by simp)
  simpa using this

theorem findLoop_append (size n : Nat) (pre mid post : List Int) (m : BitMap)
    (hmid : mid.length = n) (hsz : pre.length + n ≤ size) :
    findLoop size n pre.length (pre ++ mid ++ post) m
      = .ok (pre ++ (finds n m).1 ++ post, (finds n m).2) := by
  induction n generalizing pre mid m with
  | zero =>
    have : mid = [] := List.length_eq_zero.mp hmid
    simp [findLoop, finds, this]
  | succ n ih =>
    obtain ⟨x, mid1, rfl⟩ := List.exists_cons_of_length_eq_add_one hmid
    have hi : pre.length < size := by omega
    simp only [findLoop, hi, if_true]
    have hset : (pre ++ x :: mid1 ++ post).set pre.length m.Find.1
        = (pre ++ [m.Find.1]) ++ mid1 ++ post := by
      simp
    have hlen : (pre ++ [m.Find.1]).length = pre.length + 1 := by simp
    rw [hset, ← hlen, ih (pre ++ [m.Find.1]) mid1 m.Find.2 (by simpa using hmid) (by simp; omega)]
    simp [finds]

theorem findLoop_eq (size n : Nat) (a : List Int) (m : BitMap) (hn : n ≤ size)
    (ha : a.length = size) :
    findLoop size n 0 a m = .ok ((finds n m).1 ++ a.drop n, (finds n m).2) := by
  have := findLoop_append size n [] (a.take n) (a.drop n) m (by simp; omega) (by simpa using hn)
  simpa using this

theorem findLoop_ok_bound (size n i : Nat) (a : List Int) (m : BitMap)
    (r : List Int × BitMap) (h : findLoop size n i a m = .ok r) : n = 0 ∨ i + n ≤ size := by
  induction n generalizing i a m with
  | zero => exact Or.inl rfl
  | succ n ih =>
    right
    by_cases hi : i < size
    · simp only [findLoop, hi, if_true] at h
      rcases ih _ _ _ h with h0 | h1
      · omega
      · omega
    · simp [findLoop, hi] at h


theorem findCountLoop_append (size : Nat) (bump : Nat → Bool) (n : Nat)
    (pre mid post : List Int) (m : BitMap) (c : Int)
    (hmid : mid.length = n) (hsz : pre.length + n ≤ size) :
    findCountLoop size bump n pre.length (pre ++ mid ++ post) m c
      = .ok (pre ++ (finds n m).1 ++ post, (finds n m).2, c + countBumps bump n pre.length) := by
  induction n generalizing pre mid m c with
  | zero =>
    have : mid = [] := List.length_eq_zero.mp hmid
    simp [findCountLoop, finds, this, countBumps]
  | succ n ih =>
    obtain ⟨x, mid1, rfl⟩ := List.exists_cons_of_length_eq_add_one hmid
    have hi : pre.length < size := by omega
    simp only [findCountLoop, hi, if_true]
    have hset : (pre ++ x :: mid1 ++ post).set pre.length m.Find.1
        = (pre ++ [m.Find.1]) ++ mid1 ++ post := by
      simp
    have hlen : (pre ++ [m.Find.1]).length = pre.length + 1 := by simp
    rw [hset, ← hlen, ih (pre ++ [m.Find.1]) mid1 m.Find.2 _ (by simpa using hmid) (by simp; omega)]
    simp only [finds, countBumps, hlen]
    congr 3
    · simp
    · split <;> ring

theorem findCountLoop_eq (size : Nat) (bump : Nat → Bool) (a : List Int) (m : BitMap) (c : Int)
    (ha : a.length = size) :
    findCountLoop size bump size 0 a m c
      = .ok ((finds size m).1, (finds size m).2, c + countBumps bump size 0) := by
  have := findCountLoop_append size bump size [] a [] m c ha (by simp)
  simpa using this

theorem countBumps_true (n i : Nat) : countBumps (fun _ => true) n i = n := by
  induction n generalizing i with
  | zero => rfl
  | succ n ih => simp [countBumps, ih]; ring

theorem countBumps_above (t : Int) (n i : Nat) (h : t ≤ i) :
    countBumps (fun k => decide ((k : Int) < t)) n i = 0 := by
  induction n generalizing i with
  | zero => rfl
  | succ n ih =>
    have h1 : ¬ ((i : Int) < t) := by omega
    simp [countBumps, h1, ih (i + 1) (by push_cast; omega)]

theorem countBumps_below (t : Int) (n i : Nat) (h1 : (i : Int) ≤ t) (h2 : t ≤ i + n) :
    countBumps (fun k => decide ((k : Int) < t)) n i = t - i := by
  induction n generalizing i with
  | zero => simp [countBumps]; omega
  | succ n ih =>
    by_cases hlt : (i : Int) < t
    · simp only [countBumps, hlt, decide_True, if_true]
      rw [ih (i + 1) (by push_cast; omega) (by push_cast; omega)]
      push_cast; ring
    · have := countBumps_above t n (i + 1) (by push_cast; omega)
      simp only [countBumps, hlt, decide_False]
      rw [this]
      simp
      omega


/-! ## Arithmetic of sector counts -/

theorem divRoundUp_le_iff (n s k : Int) (hn : 0 ≤ n) (hs : 0 < s) :
    divRoundUp n s ≤ k ↔ n ≤ k * s := by
  unfold divRoundUp
  rw [Int.tdiv_eq_ediv hn (le_of_lt hs), Int.tmod_eq_emod hn (le_of_lt hs)]
  have h1 := Int.emod_add_ediv n s
  have h2 := Int.emod_nonneg n (ne_of_gt hs)
  have h3 := Int.emod_lt_of_pos n hs
  constructor
  · intro h
    split at h
    · nlinarith
    · nlinarith
  · intro h
    by_contra hc
    push_neg at hc
    split at hc
    · nlinarith
    · have : n % s = 0 := by omega
      nlinarith

theorem divRoundUp_nonneg (n s : Int) (hn : 0 ≤ n) (hs : 0 < s) : 0 ≤ divRoundUp n s := by
  unfold divRoundUp
  rw [Int.tdiv_eq_ediv hn (le_of_lt hs)]
  have := Int.ediv_nonneg hn (le_of_lt hs)
  split <;> omega

theorem sector_lt (o n s : Int) (ho : 0 ≤ o) (hon : o < n) (hs : 0 < s) :
    0 ≤ Int.tdiv o s ∧ Int.tdiv o s < divRoundUp n s := by
  rw [Int.tdiv_eq_ediv ho (le_of_lt hs)]
  refine ⟨Int.ediv_nonneg ho (le_of_lt hs), ?_⟩
  by_contra hc
  push_neg at hc
  have h1 := (divRoundUp_le_iff n s (o / s) (by omega) hs).mp hc
  have h2 := Int.emod_add_ediv o s
  have h3 := Int.emod_nonneg o (ne_of_gt hs)
  nlinarith

theorem tier1_iff (ND S : Nat) (n : Int) (hn : 0 ≤ n) (hS : 0 < S) :
    n ≤ MaxFileSize ND S ↔ divRoundUp n S ≤ ND := by
  rw [divRoundUp_le_iff n S ND hn (by exact_mod_cast hS)]
  rfl

theorem tier2_iff (ND S : Nat) (n : Int) (hn : 0 ≤ n) (hS : 0 < S) :
    n ≤ MaxFileSize2 ND S ↔ divRoundUp n S ≤ 2 * (ND : Int) + 1 := by
  rw [divRoundUp_le_iff n S _ hn (by exact_mod_cast hS)]
  unfold MaxFileSize2 PointersPerIndexBlock
  have : ((ND : Int) - 1) * S + ((ND + 2 : Nat) : Int) * S = (2 * (ND : Int) + 1) * S := by
    push_cast; ring
  rw [this]

theorem tier3_iff (ND S : Nat) (n : Int) (hn : 0 ≤ n) (hS : 0 < S) :
    n ≤ MaxFileSize3 ND S
      ↔ divRoundUp n S ≤ 2 * (ND : Int) + ((ND : Int) + 2) * ((ND : Int) + 2) := by
  rw [divRoundUp_le_iff n S _ hn (by exact_mod_cast hS)]
  unfold MaxFileSize3 PointersPerIndexBlock
  have : ((ND : Int) - 2) * S + ((ND + 2 : Nat) : Int) * S
      + ((ND + 2 : Nat) : Int) * ((ND + 2 : Nat) : Int) * S
      = (2 * (ND : Int) + ((ND : Int) + 2) * ((ND : Int) + 2)) * S := by
    push_cast; ring
  rw [this]


/-! ## Releasing blocks -/

theorem Used_lt_length {m : BitMap} {b : Int} (h : Used m b) : b.toNat < m.length := by
  by_contra hc
  have := h.2
  rw [List.getElem?_eq_none (by omega)] at this
  simp at this

theorem Free_lt_length {m : BitMap} {b : Int} (h : Free m b) : b.toNat < m.length := by
  by_contra hc
  have := h.2
  rw [List.getElem?_eq_none (by omega)] at this
  simp at this

theorem Test_of_Used {m : BitMap} {b : Int} (h : Used m b) : m.Test b = .ok true := by
  have hlt := Used_lt_length h
  have h0 := h.1
  have hr : 0 ≤ b ∧ b < (m.length : Int) := ⟨h0, by omega⟩
  simp [BitMap.Test, hr, List.getD_eq_getElem?_getD, h.2]

theorem Test_of_Free {m : BitMap} {b : Int} (h : Free m b) : m.Test b = .ok false := by
  have hlt := Free_lt_length h
  have h0 := h.1
  have hr : 0 ≤ b ∧ b < (m.length : Int) := ⟨h0, by omega⟩
  simp [BitMap.Test, hr, List.getD_eq_getElem?_getD, h.2]

theorem release_of_Used {m : BitMap} {b : Int} (h : Used m b) :
    release m b = .ok (m.set b.toNat false) := by
  have hlt := Used_lt_length h
  have h0 := h.1
  have hr : 0 ≤ b ∧ b < (m.length : Int) := ⟨h0, by omega⟩
  simp [release, Test_of_Used h, BitMap.Clear, hr]

theorem Free_after_release {m : BitMap} {b : Int} (h : Used m b) :
    Free (m.set b.toNat false) b :=
  ⟨h.1, by simp [List.getElem?_set, Used_lt_length h]⟩

theorem Used_set_false {m : BitMap} {b x : Int} (hb : 0 ≤ b) (hx : Used m x) (hne : x ≠ b) :
    Used (m.set b.toNat false) x := by
  refine ⟨hx.1, ?_⟩
  have h0 := hx.1
  have : b.toNat ≠ x.toNat := by omega
  rw [List.getElem?_set]
  simp [this, hx.2]

theorem Free_set_false {m : BitMap} {x : Int} (i : Nat) (hx : Free m x) :
    Free (m.set i false) x := by
  refine ⟨hx.1, ?_⟩
  rw [List.getElem?_set]
  split
  · next heq =>
    have := Free_lt_length hx
    simp [heq, this]
  · exact hx.2

theorem NumClear_release {m : BitMap} {b : Int} (h : Used m b) :
    BitMap.NumClear (m.set b.toNat false) = m.NumClear + 1 := by
  unfold BitMap.NumClear
  rw [count_false_set_false m _ h.2]
  push_cast
  rfl

theorem clearList_append (xs ys : List Int) (m : BitMap) :
    clearList (xs ++ ys) m
      = match clearList xs m with
        | .error e => .error e
        | .ok m1 => clearList ys m1 := by
  induction xs generalizing m with
  | nil => simp [clearList]
  | cons x xs ih =>
    simp only [List.cons_append, clearList]
    cases release m x with
    | error e => rfl
    | ok m1 => exact ih m1

theorem clearList_ok (xs : List Int) (m : BitMap) (h : Owned m xs) :
    ∃ m1, clearList xs m = .ok m1 ∧ (∀ x ∈ xs, Free m1 x) ∧
      m1.NumClear = m.NumClear + xs.length ∧
      (∀ y, Free m y → Free m1 y) ∧
      (∀ y, Used m y → y ∉ xs → Used m1 y) := by
  induction xs generalizing m with
  | nil => exact ⟨m, rfl, by simp, by simp, fun _ h => h, fun _ h _ => h⟩
  | cons x xs ih =>
    have hx : Used m x := h.2 x (List.mem_cons_self _ _)
    have hnd := List.nodup_cons.mp h.1
    have ho : Owned (m.set x.toNat false) xs := by
      refine ⟨hnd.2, fun y hy => ?_⟩
      exact Used_set_false hx.1 (h.2 y (List.mem_cons_of_mem _ hy))
        (fun heq => hnd.1 (heq ▸ hy))
    obtain ⟨m1, h1, h2, h3, h4, h5⟩ := ih _ ho
    refine ⟨m1, ?_, ?_, ?_, ?_, ?_⟩
    · simp only [clearList, release_of_Used hx]
      exact h1
    · intro y hy
      rcases List.mem_cons.mp hy with rfl | hy
      · exact h4 _ (Free_after_release hx)
      · exact h2 y hy
    · rw [h3, NumClear_release hx]
      simp
      ring
    · intro y hy
      exact h4 y (Free_set_false _ hy)
    · intro y hy hnot
      have hne : y ≠ x := fun heq => hnot (heq ▸ List.mem_cons_self _ _)
      exact h5 y (Used_set_false hx.1 hy hne) (fun hmem => hnot (List.mem_cons_of_mem _ hmem))

theorem readAt_append (size : Nat) (pre post : List Int) (x : Int) (h : pre.length < size) :
    readAt size (pre ++ x :: post) (pre.length : Int) = .ok x := by
  have hr : (0 : Int) ≤ pre.length ∧ (pre.length : Int) < size := ⟨by omega, by omega⟩
  have hg : (pre ++ x :: post)[pre.length]? = some x := by
    rw [List.getElem?_append_right (le_refl _)]
    simp
  simp only [readAt, hr, and_self, if_true, List.getD_eq_getElem?_getD, Int.toNat_ofNat, hg,
    Option.getD_some]

theorem clearLoop_append (size n : Nat) (pre mid post : List Int) (m : BitMap)
    (hmid : mid.length = n) (hsz : pre.length + n ≤ size) :
    clearLoop size (pre ++ mid ++ post) n pre.length m = clearList mid m := by
  induction n generalizing pre mid m with
  | zero =>
    have : mid = [] := List.length_eq_zero.mp hmid
    simp [clearLoop, clearList, this]
  | succ n ih =>
    obtain ⟨x, mid1, rfl⟩ := List.exists_cons_of_length_eq_add_one hmid
    have hrd : readAt size (pre ++ x :: mid1 ++ post) (pre.length : Int) = .ok x := by
      have := readAt_append size pre (mid1 ++ post) x (by omega)
      simpa using this
    simp only [clearLoop, clearList, hrd]
    cases hrel : release m x with
    | error e => rfl
    | ok m1 =>
      have hlen : (pre ++ [x]).length = pre.length + 1 := by simp
      have := ih (pre ++ [x]) mid1 m1 (by simpa using hmid) (by simp; omega)
      simp only [hlen, List.append_assoc, List.singleton_append] at this
      simpa using this


/-! ## Requests above the Tier-3 ceiling -/

theorem zeroLoop_ok (size n i : Nat) (a : List Int) (h : i + n ≤ size) :
    ∃ a1, zeroLoop size n i a = .ok a1 := by
  induction n generalizing i a with
  | zero => exact ⟨a, rfl⟩
  | succ n ih =>
    have hi : i < size := by omega
    simp only [zeroLoop, hi, if_true]
    exact ih (i + 1) _ (by omega)

theorem MaxFileSize_le_MaxFileSize2 (ND S : Nat) : MaxFileSize ND S ≤ MaxFileSize2 ND S := by
  unfold MaxFileSize MaxFileSize2 PointersPerIndexBlock
  have h1 : (0 : Int) ≤ (ND : Int) * S := by positivity
  have h2 : (0 : Int) ≤ S := by positivity
  push_cast
  nlinarith

theorem MaxFileSize2_le_MaxFileSize3 (ND S : Nat) : MaxFileSize2 ND S ≤ MaxFileSize3 ND S := by
  unfold MaxFileSize2 MaxFileSize3 PointersPerIndexBlock
  have h1 : (0 : Int) ≤ ((ND : Int) * ND + 4 * ND + 3) * S := by positivity
  push_cast
  nlinarith

/-- C5: for every `fileSize > MaxFileSize3` and every free map, `Allocate` returns
`FALSE` and the free map (and the disk) after the call is the one before it. -/
theorem Allocate_too_large (ND S : Nat) (hdr : FileHeader) (freeMap : BitMap) (disk : Disk)
    (fileSize : Int) (h : MaxFileSize3 ND S < fileSize) :
    ∃ hdr1, Allocate ND S hdr freeMap disk fileSize = .ok (false, hdr1, freeMap, disk) := by
  have h1 := MaxFileSize_le_MaxFileSize2 ND S
  have h2 := MaxFileSize2_le_MaxFileSize3 ND S
  have n1 : ¬ fileSize ≤ MaxFileSize ND S := by omega
  have n2 : ¬ fileSize ≤ MaxFileSize2 ND S := by omega
  have n3 : ¬ fileSize ≤ MaxFileSize3 ND S := by omega
  obtain ⟨t, ht⟩ := zeroLoop_ok ND ND 0 hdr.dataSectors (by omega)
  unfold Allocate
  by_cases hc : freeMap.NumClear < divRoundUp fileSize S
  · exact ⟨{ hdr with numBytes := fileSize, numSectors := divRoundUp fileSize S },
      by simp only [hc, if_true]⟩
  · exact ⟨⟨fileSize, divRoundUp fileSize S, t⟩,
      by simp only [hc, if_false, ht, n1, n2, n3]⟩

/-- The hypothesis of `Allocate_too_large` is met at `S = 128`, `NumDirect = 30`
by `fileSize = 138753 = MaxFileSize3 + 1`. -/
theorem Allocate_too_large_witness :
    MaxFileSize3 30 128 < 138753 ∧
    ∃ hdr1, Allocate 30 128 ⟨0, 0, List.replicate 30 0⟩ (List.replicate 2000 false)
      (fun _ => []) 138753 = .ok (false, hdr1, List.replicate 2000 false, fun _ => []) :=
  ⟨by decide, Allocate_too_large 30 128 _ _ _ 138753 (by decide)⟩


/-! ## Address translation against the specification -/

/-- C6: for every header, disk and offset with `0 <= offset` and
`numBytes <= MaxFileSize3`, `ByteToSector(offset)` is the translation of section 4.4 of the
specification (in particular for every `offset < numBytes`; the upper bound on the offset
is not needed for the two to agree). -/
theorem ByteToSector_eq_spec (ND S : Nat) (hdr : FileHeader) (disk : Disk) (offset : Int)
    (h0 : 0 ≤ offset) (h3 : hdr.numBytes ≤ MaxFileSize3 ND S) :
    ByteToSector ND S hdr disk offset = specByteToSector ND S hdr disk offset := by
  have hdiv : Int.tdiv offset S = offset / (S : Int) :=
    Int.tdiv_eq_ediv h0 (by positivity)
  have hP : ((PointersPerIndexBlock ND : Nat) : Int) = (ND : Int) + 2 := by
    simp [PointersPerIndexBlock]
  have hsum : (ND : Int) - 2 + ((ND : Int) + 2) = 2 * (ND : Int) := by ring
  unfold ByteToSector specByteToSector
  simp only [hdiv, hP, hsum, h3, if_true]
  by_cases t1 : hdr.numBytes ≤ MaxFileSize ND S
  · simp only [t1, if_true]
  · simp only [t1, if_false]
    by_cases t2 : hdr.numBytes ≤ MaxFileSize2 ND S
    · simp only [t2, if_true]
      rfl
    · simp only [t2, if_false]
      by_cases s1 : offset / (S : Int) < (ND : Int) - 2
      · simp only [s1, if_true]
      · simp only [s1, if_false]
        by_cases s2 : offset / (S : Int) < 2 * (ND : Int)
        · simp only [s2, if_true]
          rfl
        · simp only [s2, if_false]
          have hnn : 0 ≤ offset / (S : Int) - 2 * (ND : Int) := by omega
          rw [Int.tdiv_eq_ediv hnn (by positivity), Int.tmod_eq_emod hnn (by positivity)]
          rfl

/-- The hypotheses of `ByteToSector_eq_spec` are met by a one-sector file at `S = 128`,
`NumDirect = 30`. -/
theorem ByteToSector_eq_spec_witness :
    ((0 : Int) ≤ 5 ∧ (100 : Int) ≤ MaxFileSize3 30 128) ∧
    ByteToSector 30 128 ⟨100, 1, 7 :: List.replicate 29 0⟩ (fun _ => []) 5
      = specByteToSector 30 128 ⟨100, 1, 7 :: List.replicate 29 0⟩ (fun _ => []) 5 :=
  ⟨by decide, ByteToSector_eq_spec 30 128 _ _ 5 (by decide) (by decide)⟩

/-! ## Persistence of the header -/

/-- C9: for every header, sector number and disk, `WriteBack(b)` followed by
`FetchFrom(b)` yields a header with the same `numBytes`, the same `numSectors` and the
same entry in each of the `NumDirect` slots of the pointer table. -/
theorem FetchFrom_WriteBack (ND : Nat) (hdr : FileHeader) (disk : Disk) (b : Int) :
    (FetchFrom ND (WriteBack hdr disk b) b).numBytes = hdr.numBytes ∧
    (FetchFrom ND (WriteBack hdr disk b) b).numSectors = hdr.numSectors ∧
    (∀ i : Int, readAt ND (FetchFrom ND (WriteBack hdr disk b) b).dataSectors i
        = readAt ND hdr.dataSectors i) := by
  have hrd : ReadSector (WriteBack hdr disk b) b = headerWords hdr := by
    simp [ReadSector, WriteBack, WriteSector]
  refine ⟨?_, ?_, ?_⟩
  · simp [FetchFrom, hrd, headerWords]
  · simp [FetchFrom, hrd, headerWords]
  · intro i
    simp only [FetchFrom, hrd, headerWords, List.drop_succ_cons, List.drop_zero]
    unfold readAt
    by_cases hi : 0 ≤ i ∧ i < (ND : Int)
    · simp only [hi, and_self, if_true]
      congr 1
      have : i.toNat < ND := by omega
      simp [List.getD_eq_getElem?_getD, List.getElem?_take, this]
    · simp only [hi, if_false]


/-! ## The scenario `fileSize = 4000` at `S = 128`, `NumDirect = 30` -/

theorem findLoop_ok (size n i : Nat) (a : List Int) (m : BitMap) (h : i + n ≤ size) :
    ∃ r, findLoop size n i a m = .ok r := by
  induction n generalizing i a m with
  | zero => exact ⟨_, rfl⟩
  | succ n ih =>
    have hi : i < size := by omega
    simp only [findLoop, hi, if_true]
    exact ih (i + 1) _ _ (by omega)

set_option maxRecDepth 100000 in
/-- C10, as stated, fails: at `S = 128`, `NumDirect = 30` the call `Allocate(4000)` on a
map of 100 free blocks sets `numSectors = 32`, but the test `numBytes <= MaxFileSize`
is false (`MaxFileSize = 3840`), 34 blocks are claimed instead of 32, and the byte at
offset 3712 (sector 29) is not read from `table[29] = 29`: it is entry 0 of the index
block stored there, block 30. -/
theorem Allocate_4000_not_tier1 :
    ∃ h m d, Allocate 30 128 ⟨0, 0, List.replicate 30 0⟩ (List.replicate 100 false)
        (fun _ => []) 4000 = .ok (true, h, m, d) ∧
      h.numSectors = 32 ∧ ¬ (h.numBytes ≤ MaxFileSize 30 128) ∧
      m.NumClear = 100 - 34 ∧
      readAt 30 h.dataSectors (Int.tdiv 3712 128) = .ok 29 ∧
      ByteToSector 30 128 h d 3712 = .ok 30 := by
  refine ⟨_, _, _, rfl, ?_, ?_, ?_, ?_, ?_⟩
  · rfl
  · decide
  · rfl
  · rfl
  · rfl

/-- C10, amended: at `S = 128`, `NumDirect = 30`, `Allocate(4000)` returns with
`numBytes = 4000` and `numSectors = 32`, and the file is Tier 2:
`MaxFileSize < 4000 <= MaxFileSize2`, so `ByteToSector` reads sectors 0..28 from the
header's table and sectors 29..31 from the index block stored at `table[29]`. -/
theorem Allocate_4000_tier2 (hdr : FileHeader) (freeMap : BitMap) (disk : Disk) :
    ∃ flag h m d, Allocate 30 128 hdr freeMap disk 4000 = .ok (flag, h, m, d) ∧
      h.numBytes = 4000 ∧ h.numSectors = 32 ∧
      MaxFileSize 30 128 < h.numBytes ∧ h.numBytes ≤ MaxFileSize2 30 128 ∧
      ∀ offset : Int, 0 ≤ offset → offset < 4000 →
        ByteToSector 30 128 h d offset =
          if Int.tdiv offset 128 < 29 then readAt 30 h.dataSectors (Int.tdiv offset 128)
          else
            match readAt 30 h.dataSectors 29 with
            | .error e => .error e
            | .ok s => readAt 32 (ReadSector d s) (Int.tdiv offset 128 - 29) := by
  have hns : divRoundUp 4000 ((128 : Nat) : Int) = 32 := by decide
  have t1 : ¬ ((4000 : Int) ≤ MaxFileSize 30 128) := by decide
  have t1a : MaxFileSize 30 128 < (4000 : Int) := by decide
  have t2 : (4000 : Int) ≤ MaxFileSize2 30 128 := by decide
  have hbts : ∀ (h : FileHeader) (d : Disk), h.numBytes = 4000 →
      ∀ offset : Int, 0 ≤ offset → offset < 4000 →
        ByteToSector 30 128 h d offset =
          if Int.tdiv offset 128 < 29 then readAt 30 h.dataSectors (Int.tdiv offset 128)
          else
            match readAt 30 h.dataSectors 29 with
            | .error e => .error e
            | .ok s => readAt 32 (ReadSector d s) (Int.tdiv offset 128 - 29) := by
    intro h d hb offset _ _
    unfold ByteToSector
    simp only [hb, t1, t2, if_true, if_false]
    rfl
  unfold Allocate
  simp only [hns]
  by_cases hc : freeMap.NumClear < 32
  · simp only [hc, if_true]
    exact ⟨false, _, _, _, rfl, rfl, rfl, t1a, t2, hbts _ _ rfl⟩
  · simp only [hc, if_false, t1, t2, if_true]
    obtain ⟨t0, ht0⟩ := zeroLoop_ok 30 30 0 hdr.dataSectors (by omega)
    obtain ⟨⟨tb, m1⟩, h1⟩ := findLoop_ok 30 30 0 t0 freeMap (by omega)
    obtain ⟨⟨lf, m2⟩, h2⟩ := findLoop_ok (30 + 2) 4 0 (List.replicate (30 + 2) 0) m1 (by omega)
    have h2a : findLoop (30 + 2) (32 - (((30 : Nat) : Int) - 2)).toNat 0
        (List.replicate (30 + 2) 0) m1 = .ok (lf, m2) := h2
    have hr : readAt 30 tb (((30 : Nat) : Int) - 1) = .ok (tb.getD 29 0) := by
      simp [readAt]
    simp only [ht0, h1, h2a, hr]
    exact ⟨true, _, _, _, rfl, rfl, rfl, t1a, t2, hbts _ _ rfl⟩


/-! ## Concrete runs at `S = 128`, `NumDirect = 30` -/

set_option maxRecDepth 100000 in
/-- C1 fails at the top of Tier 2: `fileSize = 7808 = MaxFileSize2` lies in
`[0, MaxFileSize3]`, needs 61 data blocks and one index block, and the map has 100 free
blocks; yet the loop filling the index block runs `numSectors - (NumDirect - 2) = 33`
times and writes slot 32 of the 32-slot array `dataSectors2`, so `Allocate` does not
return success. -/
theorem Allocate_7808_out_of_bounds :
    ((0 : Int) ≤ 7808 ∧ (7808 : Int) ≤ MaxFileSize3 30 128) ∧
    divRoundUp 7808 128 + 1 ≤ BitMap.NumClear (List.replicate 100 false) ∧
    Allocate 30 128 ⟨0, 0, List.replicate 30 0⟩ (List.replicate 100 false) (fun _ => []) 7808
      = .error .outOfBounds :=
  ⟨by decide, by decide, rfl⟩

set_option maxRecDepth 100000 in
/-- C3 fails in Tier 2: on a map of 100 free blocks `Allocate(3841)` succeeds and the
following `Deallocate` completes, but only 99 blocks are free afterwards: the index
block received one entry more than `Deallocate` releases. -/
theorem Allocate_Deallocate_3841_leak :
    BitMap.NumClear (List.replicate 100 false) = 100 ∧
    ∃ h m d, Allocate 30 128 ⟨0, 0, List.replicate 30 0⟩ (List.replicate 100 false)
        (fun _ => []) 3841 = .ok (true, h, m, d) ∧
      ∃ m2, Deallocate 30 128 h m d = .ok m2 ∧ m2.NumClear = 99 :=
  ⟨rfl, _, _, _, rfl, _, rfl, rfl⟩

set_option maxRecDepth 100000 in
/-- C4 fails in Tier 2: `fileSize = 3841` needs 31 data blocks and one index block, the
map has 31 free blocks, and `Allocate` returns `TRUE` after claiming all 31 of them. -/
theorem Allocate_3841_short_map :
    BitMap.NumClear (List.replicate 31 false) < divRoundUp 3841 128 + 1 ∧
    ∃ h m d, Allocate 30 128 ⟨0, 0, List.replicate 30 0⟩ (List.replicate 31 false)
        (fun _ => []) 3841 = .ok (true, h, m, d) ∧
      m = List.replicate 31 true ∧ m ≠ List.replicate 31 false :=
  ⟨by decide, _, _, _, rfl, rfl, by decide⟩

set_option maxRecDepth 100000 in
/-- C7 fails in its second half: on a map of 100 free blocks `Allocate(MaxFileSize)`
marks `NumDirect = 30` blocks, but `Allocate(MaxFileSize + 1)` marks 33 blocks, not
`(NumDirect + 1) + 1 = 32`. -/
theorem Allocate_boundary_counts :
    MaxFileSize 30 128 = 3840 ∧
    (∃ h m d, Allocate 30 128 ⟨0, 0, List.replicate 30 0⟩ (List.replicate 100 false)
        (fun _ => []) 3840 = .ok (true, h, m, d) ∧ m.NumClear = 100 - 30) ∧
    (∃ h m d, Allocate 30 128 ⟨0, 0, List.replicate 30 0⟩ (List.replicate 100 false)
        (fun _ => []) 3841 = .ok (true, h, m, d) ∧ m.NumClear = 100 - 33) :=
  ⟨by decide, ⟨_, _, _, rfl, rfl⟩, ⟨_, _, _, rfl, rfl⟩⟩


/-! ## The Tier-3 inner loops -/

theorem allocInner_append (ND : Nat) (ns : Int) (r k : Nat) (pre mid post : List Int)
    (m : BitMap) (c : Int) (hmid : mid.length = r)
    (hr1 : (r : Int) ≤ ns - c) (hr2 : pre.length + r ≤ ND + 2) (hr3 : r ≤ k)
    (hstop : r = k ∨ pre.length + r = ND + 2 ∨ c + r = ns) :
    allocInner ND ns k pre.length (pre ++ mid ++ post) m c
      = (pre ++ (finds r m).1 ++ post, (finds r m).2, c + r) := by
  induction r generalizing k pre mid m c with
  | zero =>
    have hm : mid = [] := List.length_eq_zero.mp hmid
    cases k with
    | zero => simp [allocInner, finds, hm]
    | succ k =>
      have hg : ¬ (c < ns ∧ pre.length < ND + 2) := by
        rintro ⟨h1, h2⟩
        rcases hstop with h | h | h
        · omega
        · omega
        · simp at h; omega
      simp [allocInner, hg, finds, hm]
  | succ r ih =>
    obtain ⟨x, mid1, rfl⟩ := List.exists_cons_of_length_eq_add_one hmid
    cases k with
    | zero => omega
    | succ k =>
      have hg : c < ns ∧ pre.length < ND + 2 := ⟨by push_cast at hr1; omega, by omega⟩
      simp only [allocInner, hg, and_self, if_true]
      have hset : (pre ++ x :: mid1 ++ post).set pre.length m.Find.1
          = (pre ++ [m.Find.1]) ++ mid1 ++ post := by
        simp
      have hlen : (pre ++ [m.Find.1]).length = pre.length + 1 := by simp
      rw [hset, ← hlen, ih k (pre ++ [m.Find.1]) mid1 m.Find.2 (c + 1) (by simpa using hmid)
        (by push_cast at hr1 ⊢; omega) (by simp; omega) (by omega)
        (by
          rcases hstop with h | h | h
          · left; omega
          · right; left; simp; omega
          · right; right; push_cast at h; omega)]
      simp only [finds, List.append_assoc, List.singleton_append, Prod.mk.injEq, true_and]
      push_cast
      ring

theorem deallocInner_append (ND : Nat) (ns : Int) (r k : Nat) (pre mid post : List Int)
    (m : BitMap) (c : Int) (hmid : mid.length = r)
    (hr1 : (r : Int) ≤ ns - c) (hr2 : pre.length + r ≤ ND + 2) (hr3 : r ≤ k)
    (hstop : r = k ∨ pre.length + r = ND + 2 ∨ c + r = ns) :
    deallocInner ND ns (pre ++ mid ++ post) k pre.length m c
      = match clearList mid m with
        | .error e => .error e
        | .ok m1 => .ok (m1, c + r) := by
  induction r generalizing k pre mid m c with
  | zero =>
    have hm : mid = [] := List.length_eq_zero.mp hmid
    cases k with
    | zero => simp [deallocInner, clearList, hm]
    | succ k =>
      have hg : ¬ (pre.length < ND + 2 ∧ c < ns) := by
        rintro ⟨h2, h1⟩
        rcases hstop with h | h | h
        · omega
        · omega
        · simp at h; omega
      simp [deallocInner, hg, clearList, hm]
  | succ r ih =>
    obtain ⟨x, mid1, rfl⟩ := List.exists_cons_of_length_eq_add_one hmid
    cases k with
    | zero => omega
    | succ k =>
      have hg : pre.length < ND + 2 ∧ c < ns := ⟨by omega, by push_cast at hr1; omega⟩
      have hget : (pre ++ x :: mid1 ++ post).getD pre.length 0 = x := by
        have hq : (pre ++ (x :: (mid1 ++ post)))[pre.length]? = some x := by
          rw [List.getElem?_append_right (le_refl _)]
          simp
        simp only [List.getD_eq_getElem?_getD, List.append_assoc, List.cons_append, hq,
          Option.getD_some]
      simp only [deallocInner, hg, and_self, if_true, hget, clearList]
      cases hrel : release m x with
      | error e => rfl
      | ok m1 =>
        have hlen : (pre ++ [x]).length = pre.length + 1 := by simp
        have := ih k (pre ++ [x]) mid1 m1 (c + 1) (by simpa using hmid)
          (by push_cast at hr1 ⊢; omega) (by simp; omega) (by omega)
          (by
            rcases hstop with h | h | h
            · left; omega
            · right; left; simp; omega
            · right; right; push_cast at h; omega)
        simp only [hlen, List.append_assoc, List.singleton_append, List.cons_append,
          List.nil_append] at this
        simp only [List.append_assoc, List.cons_append]
        rw [this]
        cases clearList mid1 m1 with
        | error e => rfl
        | ok m2 =>
          simp only [Except.ok.injEq, Prod.mk.injEq, true_and]
          push_cast
          ring


/-! ## The Tier-3 outer loop of `Allocate` -/

theorem divRoundUp_pos (x w : Int) (hx : 0 < x) (hw : 0 < w) : 1 ≤ divRoundUp x w := by
  by_contra hc
  have h := (divRoundUp_le_iff x w 0 (le_of_lt hx) hw).mp (by omega)
  omega

theorem divRoundUp_step (x w : Int) (hx : w ≤ x) (hw : 0 < w) :
    divRoundUp (x - w) w + 1 ≤ divRoundUp x w := by
  have h1 := (divRoundUp_le_iff x w (divRoundUp x w) (by omega) hw).mp (le_refl _)
  have h2 := (divRoundUp_le_iff (x - w) w (divRoundUp x w - 1) (by omega) hw).mpr
    (by nlinarith)
  omega

theorem Owned_mono {m m1 : BitMap} {xs : List Int} (hm : ∀ x, Used m x → Used m1 x)
    (h : Owned m xs) : Owned m1 xs :=
  ⟨h.1, fun x hx => hm x (h.2 x hx)⟩

theorem aligned_lt (ND i : Nat) (c ns : Int)
    (h : c = 2 * (ND : Int) + (i : Int) * ((ND : Int) + 2)) (h1 : c < ns)
    (h2 : ns ≤ 2 * (ND : Int) + ((ND : Int) + 2) * ((ND : Int) + 2)) : i < ND + 2 := by
  by_contra hc
  push_neg at hc
  have : ((ND : Int) + 2) * ((ND : Int) + 2) ≤ (i : Int) * ((ND : Int) + 2) := by
    apply mul_le_mul_of_nonneg_right
    · exact_mod_cast hc
    · omega
  omega

theorem groupBlocks_cons (g : Int × List Int) (G : List (Int × List Int)) :
    groupBlocks (g :: G) = (g.2 ++ [g.1]) ++ groupBlocks G := by
  simp [groupBlocks, List.flatMap_cons]

theorem allocOuter_spec (ND : Nat) (ns : Int)
    (hmax : ns ≤ 2 * (ND : Int) + ((ND : Int) + 2) * ((ND : Int) + 2))
    (f i : Nat) (top : List Int) (m : BitMap) (d : Disk) (c : Int) (owned : List Int)
    (hf : ns - c ≤ f)
    (hali : c < ns → c = 2 * (ND : Int) + (i : Int) * ((ND : Int) + 2))
    (htop : top.length = ND + 2)
    (hfree : c < ns → (ns - c) + divRoundUp (ns - c) ((ND : Int) + 2) ≤ m.NumClear)
    (how : Owned m owned) :
    ∃ G top1 m1 d1 c1, allocOuter ND ns f i top m d c = .ok (top1, m1, d1, c1) ∧
      Groups ND ns c G ∧ top1.length = ND + 2 ∧
      (∀ k, k < i → top1[k]? = top[k]?) ∧
      (∀ k g, G[k]? = some g → top1[i + k]? = some g.1) ∧
      (∀ g ∈ G, ∃ post, d1 g.1 = g.2 ++ post) ∧
      (∀ s, Used m s → d1 s = d s) ∧
      (∀ x, Used m x → Used m1 x) ∧
      m1.length = m.length ∧
      Owned m1 (groupBlocks G ++ owned) := by
  induction f generalizing i top m d c owned with
  | zero =>
    refine ⟨[], top, m, d, c, rfl, ?_, htop, fun _ _ => rfl, ?_, ?_, fun _ _ => rfl,
      fun _ h => h, rfl, ?_⟩
    · simp only [Groups]; push_cast at hf; omega
    · intro k g hk; simp at hk
    · intro g hg; simp at hg
    · simpa [groupBlocks] using how
  | succ f ih =>
    by_cases hc : c < ns
    · have hi : i < ND + 2 := aligned_lt ND i c ns (hali hc) hc hmax
      have hd1 := divRoundUp_pos (ns - c) ((ND : Int) + 2) (by omega) (by omega)
      have hfr := hfree hc
      have hpos : 0 < m.NumClear := by omega
      have hnb := NumClear_Find m hpos
      have hob := Owned_Find m owned hpos how
      obtain ⟨hbfree, hbused⟩ := Find_fresh m hpos
      -- the inner loop
      let r : Nat := min (ND + 2) (ns - c).toNat
      have hr : (r : Int) = min ((ND : Int) + 2) (ns - c) := by omega
      have hinner : allocInner ND ns (ND + 2) 0 (List.replicate (ND + 2) 0) m.Find.2 c
          = ((finds r m.Find.2).1 ++ List.replicate (ND + 2 - r) 0, (finds r m.Find.2).2,
              c + (r : Int)) := by
        have h := allocInner_append ND ns r (ND + 2) [] (List.replicate r 0)
          (List.replicate (ND + 2 - r) 0) m.Find.2 c (by simp) (by omega) (by simp; omega)
          (by omega) (by simp; omega)
        have hrep : ([] : List Int) ++ List.replicate r 0 ++ List.replicate (ND + 2 - r) 0
            = List.replicate (ND + 2) 0 := by
          rw [List.nil_append, List.append_replicate_replicate]
          congr 1
          omega
        rw [hrep] at h
        simpa using h
      have hrfree : (r : Int) ≤ m.Find.2.NumClear := by omega
      have hof := Owned_finds r m.Find.2 (m.Find.1 :: owned) hrfree hob
      have hnf := NumClear_finds r m.Find.2 hrfree
      have hstep : c + (r : Int) < ns → (r : Int) = (ND : Int) + 2 := by omega
      obtain ⟨G, top1, m1, d1, c1, hrun, hG, hlen, hkeep, htopG, hdisk, hframe, hmono, hml, hown⟩ :=
        ih (i + 1) (top.set i m.Find.1) (finds r m.Find.2).2
          (WriteSector d m.Find.1 ((finds r m.Find.2).1 ++ List.replicate (ND + 2 - r) 0))
          (c + r) ((finds r m.Find.2).1 ++ m.Find.1 :: owned)
          (by push_cast at hf; omega)
          (by
            intro h
            have h1 := hstep h
            have h2 := hali hc
            push_cast
            rw [h2, h1]
            ring)
          (by simp [htop])
          (by
            intro h
            have h1 := hstep h
            have h2 := divRoundUp_step (ns - c) ((ND : Int) + 2) (by omega) (by omega)
            have h3 : ns - (c + (r : Int)) = ns - c - ((ND : Int) + 2) := by omega
            rw [h3, hnf, hnb]
            omega)
          hof
      have hmonoF : ∀ x, Used m x → Used (finds r m.Find.2).2 x :=
        fun x hx => Used_finds r _ x (Used_Find m x hx)
      refine ⟨(m.Find.1, (finds r m.Find.2).1) :: G, top1, m1, d1, c1, ?_, ?_, hlen, ?_, ?_, ?_, ?_,
        fun x hx => hmono x (hmonoF x hx), ?_, ?_⟩
      · simp only [allocOuter, hc, hi, if_true, hinner]
        exact hrun
      · simp only [Groups, finds_length]
        exact ⟨hc, hr, hG⟩
      · intro k hk
        rw [hkeep k (by omega), List.getElem?_set]
        have : ¬ i = k := by omega
        simp [this]
      · intro k g hk
        cases k with
        | zero =>
          simp only [List.getElem?_cons_zero, Option.some.injEq] at hk
          subst hk
          rw [Nat.add_zero, hkeep i (by omega), List.getElem?_set]
          simp [htop, hi]
        | succ k =>
          simp only [List.getElem?_cons_succ] at hk
          have := htopG k g hk
          rw [show i + (k + 1) = i + 1 + k by omega]
          exact this
      · intro g hg
        rcases List.mem_cons.mp hg with rfl | hg
        · refine ⟨List.replicate (ND + 2 - r) 0, ?_⟩
          have hu : Used (finds r m.Find.2).2 m.Find.1 := Used_finds r _ _ hbused
          rw [hframe _ hu]
          simp [WriteSector]
        · exact hdisk g hg
      · intro s hs
        rw [hframe s (hmonoF s hs)]
        have hne : s ≠ m.Find.1 := fun heq => Free_not_Used m _ hbfree (heq ▸ hs)
        simp [WriteSector, Function.update_noteq hne]
      · rw [hml, finds_map_length, Find_length]
      · refine Owned_perm ?_ hown
        rw [groupBlocks_cons]
        have h1 := List.perm_append_comm_assoc (groupBlocks G)
          ((finds r m.Find.2).1 ++ [m.Find.1]) owned
        simpa using h1
    · refine ⟨[], top, m, d, c, ?_, ?_, htop, fun _ _ => rfl, ?_, ?_, fun _ _ => rfl,
        fun _ h => h, rfl, ?_⟩
      · simp [allocOuter, hc]
      · simp only [Groups]; omega
      · intro k g hk; simp at hk
      · intro g hg; simp at hg
      · simpa [groupBlocks] using how


/-! ## The Tier-3 outer loop of `Deallocate` -/

theorem clearList_singleton (x : Int) (m : BitMap) : clearList [x] m = release m x := by
  simp only [clearList]
  cases release m x <;> rfl

theorem deallocOuter_eq (ND : Nat) (ns : Int)
    (hmax : ns ≤ 2 * (ND : Int) + ((ND : Int) + 2) * ((ND : Int) + 2))
    (d : Disk) (top : List Int) (G : List (Int × List Int)) (f i : Nat) (m : BitMap) (c : Int)
    (hf : ns - c ≤ f)
    (hali : c < ns → c = 2 * (ND : Int) + (i : Int) * ((ND : Int) + 2))
    (hG : Groups ND ns c G)
    (htop : ∀ k g, G[k]? = some g → top[i + k]? = some g.1)
    (hdisk : ∀ g ∈ G, ∃ post, d g.1 = g.2 ++ post) :
    ∃ c1, deallocOuter ND ns d top f i m c
      = match clearList (groupBlocks G) m with
        | .error e => .error e
        | .ok m1 => .ok (m1, c1) := by
  induction G generalizing f i m c with
  | nil =>
    simp only [Groups] at hG
    refine ⟨c, ?_⟩
    have hc : ¬ c < ns := by omega
    cases f with
    | zero => simp [deallocOuter, groupBlocks, clearList]
    | succ f => simp [deallocOuter, hc, groupBlocks, clearList]
  | cons g G ih =>
    simp only [Groups] at hG
    obtain ⟨hc, hlen, hG1⟩ := hG
    cases f with
    | zero => omega
    | succ f =>
      have hi : i < ND + 2 := aligned_lt ND i c ns (hali hc) hc hmax
      have hti : top[i]? = some g.1 := by
        have := htop 0 g (by simp)
        simpa using this
      have hrd : readAt (ND + 2) top (i : Int) = .ok g.1 := by
        have hr : (0 : Int) ≤ (i : Int) ∧ (i : Int) < ((ND + 2 : Nat) : Int) := ⟨by omega, by omega⟩
        simp only [readAt, hr, and_self, if_true, List.getD_eq_getElem?_getD, Int.toNat_ofNat, hti,
          Option.getD_some]
      obtain ⟨post, hpost⟩ := hdisk g (List.mem_cons_self _ _)
      have hinner := deallocInner_append ND ns g.2.length (ND + 2) [] g.2 post m c rfl
        (by omega) (by simp; omega) (by omega) (by simp; omega)
      have hinner1 : deallocInner ND ns (ReadSector d g.1) (ND + 2) 0 m c
          = match clearList g.2 m with
            | .error e => .error e
            | .ok m1 => .ok (m1, c + (g.2.length : Int)) := by
        simpa [ReadSector, hpost] using hinner
      have hstep : c + (g.2.length : Int) < ns → (g.2.length : Int) = (ND : Int) + 2 := by omega
      have hlenpos : 0 < (g.2.length : Int) := by omega
      have hnext : ∀ m2, ∃ c1, deallocOuter ND ns d top f (i + 1) m2 (c + (g.2.length : Int))
          = match clearList (groupBlocks G) m2 with
            | .error e => .error e
            | .ok m1 => .ok (m1, c1) := by
        intro m2
        refine ih f (i + 1) m2 (c + (g.2.length : Int)) (by push_cast at hf; omega) ?_ hG1 ?_ ?_
        · intro h
          have h1 := hstep h
          have h2 := hali hc
          push_cast
          rw [h2, h1]
          ring
        · intro k g1 hk
          have := htop (k + 1) g1 (by simpa using hk)
          rw [show i + 1 + k = i + (k + 1) by omega]
          exact this
        · intro g1 hg1
          exact hdisk g1 (List.mem_cons_of_mem _ hg1)
      simp only [deallocOuter, hc, if_true, hrd, hinner1, groupBlocks_cons, clearList_append,
        clearList_singleton]
      cases h1 : clearList g.2 m with
      | error e => exact ⟨0, rfl⟩
      | ok m1 =>
        simp only []
        cases h2 : release m1 g.1 with
        | error e => exact ⟨0, rfl⟩
        | ok m2 =>
          simp only []
          exact hnext m2


/-! ## Reading the leaf groups -/

theorem groupData_cons (g : Int × List Int) (G : List (Int × List Int)) :
    groupData (g :: G) = g.2 ++ groupData G := by
  simp [groupData, List.flatMap_cons]

theorem Groups_lookup (ND : Nat) (ns : Int) (G : List (Int × List Int)) (c : Int)
    (hG : Groups ND ns c G) (q r : Nat) (hr : r < ND + 2)
    (hlt : c + (q : Int) * ((ND : Int) + 2) + (r : Int) < ns) :
    ∃ g x, G[q]? = some g ∧ g.2[r]? = some x ∧ (groupData G)[q * (ND + 2) + r]? = some x := by
  induction G generalizing c q with
  | nil =>
    simp only [Groups] at hG
    have : (0 : Int) ≤ (q : Int) * ((ND : Int) + 2) := by positivity
    omega
  | cons g G ih =>
    simp only [Groups] at hG
    obtain ⟨hc, hlen, hG1⟩ := hG
    cases q with
    | zero =>
      have hrl : r < g.2.length := by
        simp at hlt
        omega
      refine ⟨g, g.2[r], by simp, by simp [hrl], ?_⟩
      rw [groupData_cons]
      simp [List.getElem?_append_left, hrl]
    | succ q =>
      have hq : (0 : Int) ≤ (q : Int) * ((ND : Int) + 2) := by positivity
      have hexp : ((q + 1 : Nat) : Int) * ((ND : Int) + 2)
          = (q : Int) * ((ND : Int) + 2) + ((ND : Int) + 2) := by push_cast; ring
      rw [hexp] at hlt
      have hfull : g.2.length = ND + 2 := by omega
      obtain ⟨g1, x, h1, h2, h3⟩ := ih (c + (g.2.length : Int)) hG1 q (by rw [hfull]; push_cast; omega)
      refine ⟨g1, x, by simpa using h1, h2, ?_⟩
      rw [groupData_cons, List.getElem?_append_right (by rw [hfull]; nlinarith)]
      rw [← h3]
      congr 1
      rw [hfull]
      have : (q + 1) * (ND + 2) = q * (ND + 2) + (ND + 2) := by ring
      omega

theorem Groups_length (ND : Nat) (ns : Int) (G : List (Int × List Int)) (c : Int)
    (hG : Groups ND ns c G) (hc : c ≤ ns) : ((groupData G).length : Int) = ns - c := by
  induction G generalizing c with
  | nil =>
    simp only [Groups] at hG
    simp [groupData]
    omega
  | cons g G ih =>
    simp only [Groups] at hG
    obtain ⟨hc1, hlen, hG1⟩ := hG
    rw [groupData_cons, List.length_append]
    push_cast
    rw [ih _ hG1 (by omega)]
    ring

theorem groupBlocks_perm (G : List (Int × List Int)) :
    (groupBlocks G).Perm (groupData G ++ G.map (fun g => g.1)) := by
  induction G with
  | nil => simp [groupBlocks, groupData]
  | cons g G ih =>
    rw [groupBlocks_cons, groupData_cons, List.map_cons]
    have h1 : (g.2 ++ [g.1] ++ groupBlocks G).Perm
        (g.2 ++ ([g.1] ++ (groupData G ++ G.map (fun g => g.1)))) := by
      rw [List.append_assoc]
      exact (List.Perm.append_left _ (List.Perm.append_left _ ih))
    refine h1.trans ?_
    rw [List.append_assoc]
    refine List.Perm.append_left _ ?_
    have := List.perm_append_comm_assoc [g.1] (groupData G) (G.map (fun g => g.1))
    simpa using this


/-! ## What a successful `Allocate` leaves behind: Tier 1 -/

theorem Allocate_tier1_eq (ND S : Nat) (hS : 0 < S) (hdr : FileHeader) (m : BitMap) (d : Disk)
    (fileSize : Int) (hlen : hdr.dataSectors.length = ND) (h0 : 0 ≤ fileSize)
    (hfree : divRoundUp fileSize S ≤ m.NumClear) (ht : fileSize ≤ MaxFileSize ND S) :
    Allocate ND S hdr m d fileSize
      = .ok (true, ⟨fileSize, divRoundUp fileSize S,
          (finds (divRoundUp fileSize S).toNat m).1
            ++ List.replicate (ND - (divRoundUp fileSize S).toNat) 0⟩,
          (finds (divRoundUp fileSize S).toNat m).2, d) := by
  have hns := (tier1_iff ND S fileSize h0 hS).mp ht
  have hnn := divRoundUp_nonneg fileSize S h0 (by exact_mod_cast hS)
  have hc : ¬ m.NumClear < divRoundUp fileSize S := by omega
  unfold Allocate
  simp only [hc, if_false, zeroLoop_eq ND hdr.dataSectors hlen, ht, if_true]
  rw [findLoop_eq ND (divRoundUp fileSize S).toNat _ m (by omega) (by simp)]
  simp

theorem Allocate_layout_tier1 (ND S : Nat) (hS : 0 < S) (hdr : FileHeader) (m : BitMap)
    (d : Disk) (fileSize : Int) (hlen : hdr.dataSectors.length = ND) (h0 : 0 ≤ fileSize)
    (hfree : divRoundUp fileSize S ≤ m.NumClear) (ht : fileSize ≤ MaxFileSize ND S)
    (hdr1 : FileHeader) (m1 : BitMap) (d1 : Disk)
    (hA : Allocate ND S hdr m d fileSize = .ok (true, hdr1, m1, d1)) :
    hdr1.numBytes = fileSize ∧ hdr1.numSectors = divRoundUp fileSize S ∧
    ∃ data idx order, IsLayout ND S hdr1 m1 d1 data idx order := by
  have hns := (tier1_iff ND S fileSize h0 hS).mp ht
  have hnn := divRoundUp_nonneg fileSize S h0 (by exact_mod_cast hS)
  rw [Allocate_tier1_eq ND S hS hdr m d fileSize hlen h0 hfree ht] at hA
  simp only [Except.ok.injEq, Prod.mk.injEq, true_and] at hA
  obtain ⟨rfl, rfl, rfl⟩ := hA
  refine ⟨rfl, rfl, (finds (divRoundUp fileSize S).toNat m).1, [], (finds (divRoundUp fileSize S).toNat m).1, ?_⟩
  have hFl := finds_length (divRoundUp fileSize S).toNat m
  refine ⟨?_, ?_, ?_, ?_, ?_, ?_, ?_⟩
  · intro offset ho1 ho2
    obtain ⟨hs1, hs2⟩ := sector_lt offset fileSize S ho1 ho2 (by exact_mod_cast hS)
    have hk : (Int.tdiv offset S).toNat < (finds (divRoundUp fileSize S).toNat m).1.length := by
      rw [hFl]; omega
    refine ⟨hk, ?_⟩
    have hr : 0 ≤ Int.tdiv offset S ∧ Int.tdiv offset S < (ND : Int) := ⟨hs1, by omega⟩
    simp only [ByteToSector, ht, if_true, readAt, hr, and_self]
    rw [List.getD_append _ _ _ _ hk]
  · show (((finds (divRoundUp fileSize S).toNat m).1.length : Nat) : Int) = divRoundUp fileSize S
    rw [hFl]; omega
  · simp
  · have := Owned_finds (divRoundUp fileSize S).toNat m [] (by omega) ⟨List.nodup_nil, by simp⟩
    simpa using this
  · simp only [Deallocate, ht, if_true]
    have := clearLoop_append ND (divRoundUp fileSize S).toNat []
      (finds (divRoundUp fileSize S).toNat m).1
      (List.replicate (ND - (divRoundUp fileSize S).toNat) 0)
      (finds (divRoundUp fileSize S).toNat m).2 hFl (by simp; omega)
    simpa using this
  · intro h1 _
    simp only at h1
    omega
  · intro h1
    have := MaxFileSize_le_MaxFileSize2 ND S
    simp only at h1
    omega


/-! ## What a successful `Allocate` leaves behind: Tier 2 -/

theorem findLoop_error (size n i : Nat) (a : List Int) (m : BitMap) (h : size < i + n)
    (hn : 0 < n) : findLoop size n i a m = .error .outOfBounds := by
  induction n generalizing i a m with
  | zero => omega
  | succ n ih =>
    by_cases hi : i < size
    · simp only [findLoop, hi, if_true]
      exact ih (i + 1) _ _ (by omega) (by omega)
    · simp [findLoop, hi]

theorem take_append_getD (T : List Int) (k : Nat) (h : T.length = k + 1) :
    T = T.take k ++ [T.getD k 0] := by
  have h1 : T.take (k + 1) = T := List.take_of_length_le (by omega)
  have h2 := List.take_succ (l := T) (n := k)
  rw [h1] at h2
  have h3 : T[k]? = some (T.getD k 0) := by
    rw [List.getD_eq_getElem?_getD, List.getElem?_eq_getElem (by omega)]
    rfl
  rw [h3] at h2
  simpa using h2

theorem Allocate_tier2_overflow (ND S : Nat) (hdr : FileHeader) (m : BitMap)
    (d : Disk) (fileSize : Int) (hlen : hdr.dataSectors.length = ND)
    (hfree : divRoundUp fileSize S ≤ m.NumClear) (ht1 : ¬ fileSize ≤ MaxFileSize ND S)
    (ht2 : fileSize ≤ MaxFileSize2 ND S) (hov : 2 * (ND : Int) < divRoundUp fileSize S) :
    Allocate ND S hdr m d fileSize = .error .outOfBounds := by
  have hc : ¬ m.NumClear < divRoundUp fileSize S := by omega
  unfold Allocate
  simp only [hc, if_false, zeroLoop_eq ND hdr.dataSectors hlen, ht1, ht2, if_true]
  rw [findLoop_eq ND ND _ m (le_refl _) (by simp)]
  simp only []
  rw [findLoop_error (ND + 2) _ 0 _ _ (by omega) (by omega)]

theorem Allocate_tier2_eq (ND S : Nat) (hS : 0 < S) (hdr : FileHeader) (m : BitMap) (d : Disk)
    (fileSize : Int) (hlen : hdr.dataSectors.length = ND) (h0 : 0 ≤ fileSize)
    (hfree : divRoundUp fileSize S ≤ m.NumClear) (ht1 : ¬ fileSize ≤ MaxFileSize ND S)
    (ht2 : fileSize ≤ MaxFileSize2 ND S) (hov : divRoundUp fileSize S ≤ 2 * (ND : Int)) :
    Allocate ND S hdr m d fileSize
      = .ok (true, ⟨fileSize, divRoundUp fileSize S, (finds ND m).1⟩,
          (finds (divRoundUp fileSize S - ((ND : Int) - 2)).toNat (finds ND m).2).2,
          WriteSector d ((finds ND m).1.getD (ND - 1) 0)
            ((finds (divRoundUp fileSize S - ((ND : Int) - 2)).toNat (finds ND m).2).1
              ++ List.replicate
                (ND + 2 - (divRoundUp fileSize S - ((ND : Int) - 2)).toNat) 0)) := by
  have hns : ¬ divRoundUp fileSize S ≤ ND := fun h => ht1 ((tier1_iff ND S fileSize h0 hS).mpr h)
  have hc : ¬ m.NumClear < divRoundUp fileSize S := by omega
  have hr : (0 : Int) ≤ (ND : Int) - 1 ∧ (ND : Int) - 1 < (ND : Int) := ⟨by omega, by omega⟩
  have htn : ((ND : Int) - 1).toNat = ND - 1 := by omega
  unfold Allocate
  simp only [hc, if_false, zeroLoop_eq ND hdr.dataSectors hlen, ht1, ht2, if_true]
  rw [findLoop_eq ND ND _ m (le_refl _) (by simp)]
  simp only []
  rw [findLoop_eq (ND + 2) _ _ _ (by omega) (by simp)]
  simp [readAt, hr, htn]

theorem Allocate_layout_tier2 (ND S : Nat) (hS : 0 < S) (hdr : FileHeader) (m : BitMap)
    (d : Disk) (fileSize : Int) (hlen : hdr.dataSectors.length = ND) (h0 : 0 ≤ fileSize)
    (hfree : divRoundUp fileSize S + 1 ≤ m.NumClear) (ht1 : ¬ fileSize ≤ MaxFileSize ND S)
    (ht2 : fileSize ≤ MaxFileSize2 ND S)
    (hdr1 : FileHeader) (m1 : BitMap) (d1 : Disk)
    (hA : Allocate ND S hdr m d fileSize = .ok (true, hdr1, m1, d1)) :
    hdr1.numBytes = fileSize ∧ hdr1.numSectors = divRoundUp fileSize S ∧
    ∃ data idx order, IsLayout ND S hdr1 m1 d1 data idx order := by
  have hns : ¬ divRoundUp fileSize S ≤ ND := fun h => ht1 ((tier1_iff ND S fileSize h0 hS).mpr h)
  by_cases hov : divRoundUp fileSize S ≤ 2 * (ND : Int)
  swap
  · rw [Allocate_tier2_overflow ND S hdr m d fileSize hlen (by omega) ht1 ht2 (by omega)] at hA
    simp at hA
  rw [Allocate_tier2_eq ND S hS hdr m d fileSize hlen h0 (by omega) ht1 ht2 hov] at hA
  simp only [Except.ok.injEq, Prod.mk.injEq, true_and] at hA
  obtain ⟨rfl, rfl, rfl⟩ := hA
  -- the blocks of the table and of the index block
  obtain ⟨u, hu⟩ : ∃ u : Nat, (u : Int) = divRoundUp fileSize S - ((ND : Int) - 1) :=
    ⟨(divRoundUp fileSize S - ((ND : Int) - 1)).toNat, by omega⟩
  have hcnt : (divRoundUp fileSize S - ((ND : Int) - 2)).toNat = u + 1 := by omega
  have hut : (divRoundUp fileSize S - ((ND : Int) - 1)).toNat = u := by omega
  rw [hcnt]
  have hTl := finds_length ND m
  have hUl := finds_length u (finds ND m).2
  have hsplit := finds_add u 1 (finds ND m).2
  have hL : (finds (u + 1) (finds ND m).2).1
      = (finds u (finds ND m).2).1 ++ [(finds u (finds ND m).2).2.Find.1] := by
    rw [hsplit]; rfl
  have hM : (finds (u + 1) (finds ND m).2).2 = (finds u (finds ND m).2).2.Find.2 := by
    rw [hsplit]; rfl
  have hTown : Owned (finds ND m).2 (finds ND m).1 := by
    have := Owned_finds ND m [] (by omega) ⟨List.nodup_nil, by simp⟩
    simpa using this
  have hnc := NumClear_finds ND m (by omega)
  have hUown : Owned (finds (u + 1) (finds ND m).2).2
      ((finds u (finds ND m).2).1 ++ (finds ND m).1) := by
    rw [hM]
    exact Owned_mono (fun x hx => Used_Find _ x hx)
      (Owned_finds u (finds ND m).2 _ (by omega) hTown)
  have hND : 1 ≤ ND := by omega
  have hTsplit := take_append_getD (finds ND m).1 (ND - 1) (by omega)
  have hrd : readAt ND (finds ND m).1 ((ND : Int) - 1) = .ok ((finds ND m).1.getD (ND - 1) 0) := by
    have hr : (0 : Int) ≤ (ND : Int) - 1 ∧ (ND : Int) - 1 < (ND : Int) := ⟨by omega, by omega⟩
    have htn : ((ND : Int) - 1).toNat = ND - 1 := by omega
    simp [readAt, hr, htn]
  have hsec : ∀ X : List Int, ReadSector (WriteSector d ((finds ND m).1.getD (ND - 1) 0) X)
      ((finds ND m).1.getD (ND - 1) 0) = X := by
    intro X; simp [ReadSector, WriteSector]
  refine ⟨rfl, rfl, (finds ND m).1.take (ND - 1) ++ (finds u (finds ND m).2).1,
    [(finds ND m).1.getD (ND - 1) 0], (finds u (finds ND m).2).1 ++ (finds ND m).1, ?_⟩
  have hdl : ((finds ND m).1.take (ND - 1) ++ (finds u (finds ND m).2).1).length
      = ND - 1 + u := by
    simp [hTl, hUl]
  have hperm : ((finds u (finds ND m).2).1 ++ (finds ND m).1).Perm
      ((finds ND m).1.take (ND - 1) ++ (finds u (finds ND m).2).1
        ++ [(finds ND m).1.getD (ND - 1) 0]) := by
    have h1 : ((finds u (finds ND m).2).1 ++ (finds ND m).1) =
        (finds u (finds ND m).2).1 ++ ((finds ND m).1.take (ND - 1)
          ++ [(finds ND m).1.getD (ND - 1) 0]) := by rw [← hTsplit]
    rw [h1, ← List.append_assoc]
    exact List.Perm.append_right _ List.perm_append_comm
  refine ⟨?_, ?_, hperm, Owned_perm hperm hUown, ?_, ?_, ?_⟩
  · intro offset ho1 ho2
    obtain ⟨hs1, hs2⟩ := sector_lt offset fileSize S ho1 ho2 (by exact_mod_cast hS)
    have hk : (Int.tdiv offset S).toNat
        < ((finds ND m).1.take (ND - 1) ++ (finds u (finds ND m).2).1).length := by
      rw [hdl]; omega
    refine ⟨hk, ?_⟩
    simp only [ByteToSector, ht1, ht2, if_true, if_false]
    by_cases hdir : Int.tdiv offset S < (ND : Int) - 1
    · have hr : 0 ≤ Int.tdiv offset S ∧ Int.tdiv offset S < (ND : Int) := ⟨hs1, by omega⟩
      simp only [hdir, if_true, readAt, hr, and_self]
      rw [List.getD_append _ _ _ _ (by simp [hTl]; omega)]
      simp only [List.getD_eq_getElem?_getD]
      rw [List.getElem?_take_of_lt (by omega)]
    · have hr : 0 ≤ Int.tdiv offset S - ((ND : Int) - 1)
          ∧ Int.tdiv offset S - ((ND : Int) - 1) < ((ND + 2 : Nat) : Int) := by
        constructor
        · omega
        · push_cast; omega
      simp only [hdir, if_false, hrd, hsec]
      simp only [readAt, hr, and_self, if_true]
      have hidx : (Int.tdiv offset S - ((ND : Int) - 1)).toNat
          = (Int.tdiv offset S).toNat - (ND - 1) := by omega
      have hrhs : ((finds ND m).1.take (ND - 1) ++ (finds u (finds ND m).2).1).getD
          (Int.tdiv offset S).toNat 0
          = (finds u (finds ND m).2).1.getD ((Int.tdiv offset S).toNat - (ND - 1)) 0 := by
        rw [List.getD_append_right _ _ _ _ (by simp [hTl]; omega)]
        congr 1
        simp [hTl]
      have hlhs : ((finds (u + 1) (finds ND m).2).1
          ++ List.replicate (ND + 2 - (u + 1)) 0).getD
            (Int.tdiv offset S - ((ND : Int) - 1)).toNat 0
          = (finds u (finds ND m).2).1.getD ((Int.tdiv offset S).toNat - (ND - 1)) 0 := by
        rw [hL, List.append_assoc, List.getD_append _ _ _ _ (by rw [hUl]; omega), hidx]
      rw [hlhs, hrhs]
  · show ((((finds ND m).1.take (ND - 1) ++ (finds u (finds ND m).2).1).length : Nat) : Int)
      = divRoundUp fileSize S
    rw [hdl]; omega
  · simp only [Deallocate, ht1, ht2, if_true, if_false, hrd, hsec, hut]
    have h1 := clearLoop_append (ND + 2) u [] (finds u (finds ND m).2).1
      ((finds u (finds ND m).2).2.Find.1 :: List.replicate (ND + 2 - (u + 1)) 0)
      (finds (u + 1) (finds ND m).2).2 hUl (by simp; omega)
    have h1a : clearLoop (ND + 2) ((finds (u + 1) (finds ND m).2).1
        ++ List.replicate (ND + 2 - (u + 1)) 0) u 0 (finds (u + 1) (finds ND m).2).2
        = clearList (finds u (finds ND m).2).1 (finds (u + 1) (finds ND m).2).2 := by
      rw [hL]
      simpa using h1
    rw [h1a, clearList_append]
    cases clearList (finds u (finds ND m).2).1 (finds (u + 1) (finds ND m).2).2 with
    | error e => rfl
    | ok m2 =>
      have h2 := clearLoop_append ND ND [] (finds ND m).1 [] m2 hTl (by simp)
      simpa using h2
  · intro _ _
    exact ⟨_, hrd, by simp⟩
  · intro h1
    simp only at h1
    omega


/-! ## What a successful `Allocate` leaves behind: Tier 3 -/

theorem take_append_two (T : List Int) (k : Nat) (h : T.length = k + 2) :
    T = T.take k ++ [T.getD k 0, T.getD (k + 1) 0] := by
  have h1 := take_append_getD T (k + 1) (by omega)
  have h2 := take_append_getD (T.take (k + 1)) k (by simp; omega)
  have h3 : (T.take (k + 1)).take k = T.take k := by
    rw [List.take_take]; congr 1; omega
  have h4 : (T.take (k + 1)).getD k 0 = T.getD k 0 := by
    simp only [List.getD_eq_getElem?_getD]
    rw [List.getElem?_take_of_lt (by omega)]
  rw [h3, h4] at h2
  calc T = T.take (k + 1) ++ [T.getD (k + 1) 0] := h1
    _ = (T.take k ++ [T.getD k 0]) ++ [T.getD (k + 1) 0] := by rw [← h2]
    _ = T.take k ++ [T.getD k 0, T.getD (k + 1) 0] := by simp

theorem getD_mem (T : List Int) (k : Nat) (h : k < T.length) : T.getD k 0 ∈ T := by
  rw [List.getD_eq_getElem?_getD, List.getElem?_eq_getElem h]
  exact List.getElem_mem h

theorem readAt_ok (size : Nat) (a : List Int) (i : Int) (h0 : 0 ≤ i) (h1 : i < (size : Int)) :
    readAt size a i = .ok (a.getD i.toNat 0) := by
  simp [readAt, h0, h1]

theorem tier3_order_perm (G : List (Int × List Int)) (L1 T Tt : List Int) (a b : Int)
    (hT : T = Tt ++ [a, b]) :
    (groupBlocks G ++ L1 ++ T).Perm
      (Tt ++ L1 ++ groupData G ++ ([a, b] ++ G.map (fun g => g.1))) := by
  rw [List.perm_iff_count]
  intro x
  have h1 := (groupBlocks_perm G).count_eq x
  rw [hT]
  simp only [List.count_append] at h1 ⊢
  omega


theorem tdiv_tmod_nat (x : Int) (ND : Nat) (hx : 0 ≤ x) :
    Int.tdiv x ((ND : Int) + 2) = ((x.toNat / (ND + 2) : Nat) : Int) ∧
    Int.tmod x ((ND : Int) + 2) = ((x.toNat % (ND + 2) : Nat) : Int) := by
  have hw : (0 : Int) ≤ (ND : Int) + 2 := by omega
  rw [Int.tdiv_eq_ediv hx hw, Int.tmod_eq_emod hx hw]
  obtain ⟨t, rfl⟩ := Int.eq_ofNat_of_zero_le hx
  constructor
  · simp only [Int.toNat_ofNat]
    push_cast
    rfl
  · simp only [Int.toNat_ofNat]
    push_cast
    rfl

theorem layout_tier3_core (ND S : Nat) (hS : 0 < S) (fileSize ns : Int)
    (hns : ns = divRoundUp fileSize S) (h0 : 0 ≤ fileSize)
    (ht2 : ¬ fileSize ≤ MaxFileSize2 ND S)
    (Tt L1 top1 : List Int) (a b : Int) (G : List (Int × List Int)) (m3 : BitMap) (d3 : Disk)
    (hTl : Tt.length + 2 = ND) (hL1l : L1.length = ND + 2) (htl : top1.length = ND + 2)
    (hmax : ns ≤ 2 * (ND : Int) + ((ND : Int) + 2) * ((ND : Int) + 2))
    (hG : Groups ND ns (2 * (ND : Int)) G)
    (htopG : ∀ k g, G[k]? = some g → top1[0 + k]? = some g.1)
    (hdisk : ∀ g ∈ G, ∃ post, d3 g.1 = g.2 ++ post)
    (hL1d : d3 a = L1)
    (hown : Owned m3 (groupBlocks G ++ (L1 ++ (Tt ++ [a, b])))) :
    ∃ data idx order, IsLayout ND S ⟨fileSize, ns, Tt ++ [a, b]⟩ m3
      (WriteSector d3 b top1) data idx order := by
  have ht1 : ¬ fileSize ≤ MaxFileSize ND S := by
    have := MaxFileSize_le_MaxFileSize2 ND S
    omega
  have hlo : 2 * (ND : Int) + 1 < ns := by
    have := (tier2_iff ND S fileSize h0 hS).not.mp ht2
    omega
  have hperm := tier3_order_perm G L1 (Tt ++ [a, b]) Tt a b rfl
  have hown1 : Owned m3 (groupBlocks G ++ L1 ++ (Tt ++ [a, b])) := by
    rw [List.append_assoc]; exact hown
  have hown2 := Owned_perm hperm hown1
  -- the two table slots holding index blocks differ from each other and from the leaves
  have hnd : (groupBlocks G ++ (L1 ++ (Tt ++ [a, b]))).Nodup := hown.1
  have hTnd : (Tt ++ [a, b]).Nodup := (List.nodup_append.mp (List.nodup_append.mp hnd).2.1).2.1
  have hab : a ≠ b := by
    have := (List.nodup_append.mp hTnd).2.1
    simp at this
    exact this
  have hleaf_ne : ∀ g ∈ G, g.1 ≠ b := by
    intro g hg heq
    have h1 : g.1 ∈ groupBlocks G := by
      simp only [groupBlocks, List.mem_flatMap]
      exact ⟨g, hg, by simp⟩
    have h2 := (List.nodup_append.mp hnd).2.2
    exact h2 h1 (List.mem_append_right _ (heq ▸ (by simp)))
  -- the disk after the top index block is written
  have hdb : ReadSector (WriteSector d3 b top1) b = top1 := by
    simp [ReadSector, WriteSector]
  have hda : ReadSector (WriteSector d3 b top1) a = L1 := by
    simp [ReadSector, WriteSector, Function.update_noteq hab, hL1d]
  have hdg : ∀ g ∈ G, ∃ post, (WriteSector d3 b top1) g.1 = g.2 ++ post := by
    intro g hg
    obtain ⟨post, hp⟩ := hdisk g hg
    exact ⟨post, by simp [WriteSector, Function.update_noteq (hleaf_ne g hg), hp]⟩
  have hra : readAt ND (Tt ++ [a, b]) ((ND : Int) - 2) = .ok a := by
    have := readAt_append ND Tt [b] a (by omega)
    have he : ((ND : Int) - 2) = (Tt.length : Int) := by omega
    rw [he]
    exact this
  have hrb : readAt ND (Tt ++ [a, b]) ((ND : Int) - 1) = .ok b := by
    have := readAt_append ND (Tt ++ [a]) [] b (by simp; omega)
    have he : ((ND : Int) - 1) = ((Tt ++ [a]).length : Int) := by simp; omega
    rw [he]
    simpa using this
  have hGl := Groups_length ND ns G _ hG (by omega)
  have hdl : (Tt ++ L1 ++ groupData G).length = ND - 2 + (ND + 2) + (groupData G).length := by
    simp [hL1l]; omega
  refine ⟨Tt ++ L1 ++ groupData G, [a, b] ++ G.map (fun g => g.1),
    groupBlocks G ++ L1 ++ (Tt ++ [a, b]), ?_, ?_, hperm, hown2, ?_, ?_, ?_⟩
  · intro offset ho1 ho2
    obtain ⟨hs1, hs2⟩ := sector_lt offset fileSize S ho1 ho2 (by exact_mod_cast hS)
    rw [← hns] at hs2
    have hk : (Int.tdiv offset S).toNat < (Tt ++ L1 ++ groupData G).length := by
      rw [hdl]; omega
    refine ⟨hk, ?_⟩
    simp only [ByteToSector, ht1, ht2, if_false]
    by_cases hdir : Int.tdiv offset S < (ND : Int) - 2
    · simp only [hdir, if_true]
      rw [readAt_ok ND _ _ hs1 (by omega)]
      rw [List.getD_append _ _ _ _ (by omega), List.append_assoc,
        List.getD_append _ _ _ _ (by omega)]
    · simp only [hdir, if_false]
      by_cases hone : Int.tdiv offset S < 2 * (ND : Int)
      · simp only [hone, if_true, hra, hda]
        rw [readAt_ok (ND + 2) _ _ (by omega) (by push_cast; omega)]
        rw [List.getD_append _ _ _ _ (by simp [hL1l]; omega),
          List.getD_append_right _ _ _ _ (by omega)]
        congr 2
        omega
      · simp only [hone, if_false, hrb, hdb]
        obtain ⟨hq, hr⟩ := tdiv_tmod_nat (Int.tdiv offset S - 2 * (ND : Int)) ND (by omega)
        obtain ⟨t, ht⟩ : ∃ t : Nat, (t : Int) = Int.tdiv offset S - 2 * (ND : Int) :=
          ⟨(Int.tdiv offset S - 2 * (ND : Int)).toNat, by omega⟩
        have htn : (Int.tdiv offset S - 2 * (ND : Int)).toNat = t := by omega
        rw [htn] at hq hr
        rw [hq, hr]
        have hrlt : t % (ND + 2) < ND + 2 := Nat.mod_lt _ (by omega)
        have hqrn : t / (ND + 2) * (ND + 2) + t % (ND + 2) = t := Nat.div_add_mod' t (ND + 2)
        generalize t / (ND + 2) = q at hqrn ⊢
        generalize t % (ND + 2) = r at hrlt hqrn ⊢
        have hqr : (q : Int) * ((ND : Int) + 2) + (r : Int) = (t : Int) := by
          exact_mod_cast hqrn
        obtain ⟨g, x, hgq, hgx, hdx⟩ := Groups_lookup ND ns G _ hG q r
          hrlt (by omega)
        have htq := htopG _ g hgq
        rw [Nat.zero_add] at htq
        have hqlt : q < ND + 2 := by
          by_contra hc
          rw [List.getElem?_eq_none (by omega)] at htq
          simp at htq
        have hgmem : g ∈ G := List.getElem?_mem hgq
        obtain ⟨post, hpost⟩ := hdg g hgmem
        rw [readAt_ok (ND + 2) _ _ (by omega) (by omega)]
        simp only [Int.toNat_ofNat, List.getD_eq_getElem?_getD, htq, Option.getD_some, ReadSector,
          hpost]
        rw [readAt_ok (ND + 2) _ _ (by omega) (by omega)]
        have hx1 : (g.2 ++ post)[r]? = some x := by
          have hl : r < g.2.length := by
            by_contra hc
            rw [List.getElem?_eq_none (by omega)] at hgx
            simp at hgx
          rw [List.getElem?_append_left hl]
          exact hgx
        have hx2 : (Tt ++ L1 ++ groupData G)[(Int.tdiv offset S).toNat]? = some x := by
          rw [List.getElem?_append_right (by simp [hL1l]; omega), ← hdx]
          congr 1
          simp [hL1l]
          omega
        simp only [Int.toNat_ofNat, List.getD_eq_getElem?_getD, hx1, hx2]
  · show (((Tt ++ L1 ++ groupData G).length : Nat) : Int) = ns
    rw [hdl]; push_cast; omega
  · simp only [Deallocate, ht1, ht2, if_false, hra, hrb, hda, hdb]
    obtain ⟨c1, hdo⟩ := deallocOuter_eq ND ns hmax (WriteSector d3 b top1) top1 G
      (ns - 2 * (ND : Int)).toNat 0 m3 (2 * (ND : Int)) (by omega) (by intro _; simp) hG htopG hdg
    rw [hdo, clearList_append, clearList_append]
    cases clearList (groupBlocks G) m3 with
    | error e => rfl
    | ok m4 =>
      simp only []
      have h1 := clearLoop_append (ND + 2) (ND + 2) [] L1 [] m4 hL1l (by simp)
      simp only [List.nil_append, List.append_nil, List.length_nil] at h1
      rw [h1]
      cases clearList L1 m4 with
      | error e => rfl
      | ok m5 =>
        simp only []
        have h2 := clearLoop_append ND ND [] (Tt ++ [a, b]) [] m5 (by simp; omega) (by simp)
        simpa using h2
  · intro h1 h2
    simp only at h2
    exact absurd h2 ht2
  · intro _
    refine ⟨⟨a, hra, by simp⟩, ⟨b, hrb, by simp, ?_⟩⟩
    intro g hg0 hglt
    rw [hdb]
    obtain ⟨q, hq⟩ : ∃ q : Nat, (q : Int) = g := ⟨g.toNat, by omega⟩
    have hglt1 : g * ((ND : Int) + 2) < ns - 2 * (ND : Int) := hglt
    obtain ⟨gg, x, hgq, _, _⟩ := Groups_lookup ND ns G _ hG q 0 (by omega)
      (by rw [hq]; push_cast; omega)
    have htq := htopG _ gg hgq
    rw [Nat.zero_add] at htq
    have hqlt : q < ND + 2 := by
      by_contra hc
      rw [List.getElem?_eq_none (by omega)] at htq
      simp at htq
    refine ⟨gg.1, ?_, ?_⟩
    · rw [readAt_ok (ND + 2) _ _ (by omega) (by omega)]
      have : g.toNat = q := by omega
      simp only [this, List.getD_eq_getElem?_getD, htq, Option.getD_some]
    · have hgmem : gg ∈ G := List.getElem?_mem hgq
      exact List.mem_append_right _ (List.mem_map_of_mem _ hgmem)


theorem Allocate_layout_tier3 (ND S : Nat) (hS : 0 < S) (hdr : FileHeader) (m : BitMap)
    (d : Disk) (fileSize : Int) (hlen : hdr.dataSectors.length = ND) (h0 : 0 ≤ fileSize)
    (hfree : divRoundUp fileSize S + (2 + divRoundUp
      (divRoundUp fileSize S - ((ND : Int) - 2) - (PointersPerIndexBlock ND : Int))
      (PointersPerIndexBlock ND : Int)) ≤ m.NumClear)
    (ht2 : ¬ fileSize ≤ MaxFileSize2 ND S)
    (hdr1 : FileHeader) (m1 : BitMap) (d1 : Disk)
    (hA : Allocate ND S hdr m d fileSize = .ok (true, hdr1, m1, d1)) :
    hdr1.numBytes = fileSize ∧ hdr1.numSectors = divRoundUp fileSize S ∧
    ∃ data idx order, IsLayout ND S hdr1 m1 d1 data idx order := by
  have ht1 : ¬ fileSize ≤ MaxFileSize ND S := by
    have := MaxFileSize_le_MaxFileSize2 ND S
    omega
  have hlo : 2 * (ND : Int) + 1 < divRoundUp fileSize S := by
    have := (tier2_iff ND S fileSize h0 hS).not.mp ht2
    omega
  have hP : ((PointersPerIndexBlock ND : Nat) : Int) = (ND : Int) + 2 := by
    simp [PointersPerIndexBlock]
  rw [hP] at hfree
  have hd0 := divRoundUp_nonneg (divRoundUp fileSize S - ((ND : Int) - 2) - ((ND : Int) + 2))
    ((ND : Int) + 2) (by omega) (by omega)
  have hc : ¬ m.NumClear < divRoundUp fileSize S := by omega
  unfold Allocate at hA
  simp only [hc, if_false, zeroLoop_eq ND hdr.dataSectors hlen, ht1, ht2] at hA
  by_cases ht3 : fileSize ≤ MaxFileSize3 ND S
  swap
  · simp [ht3] at hA
  have hmax := (tier3_iff ND S fileSize h0 hS).mp ht3
  simp only [ht3, if_true] at hA
  rw [findCountLoop_eq ND _ _ m 0 (by simp)] at hA
  simp only [] at hA
  rw [findCountLoop_eq (ND + 2) _ _ _ _ (by simp)] at hA
  simp only [] at hA
  by_cases hND : 2 ≤ ND
  swap
  · have hr : ¬ (0 ≤ (ND : Int) - 2 ∧ (ND : Int) - 2 < (ND : Int)) := by omega
    simp only [readAt, hr, if_false] at hA
    cases hA
  have hcb1 := countBumps_below ((ND : Int) - 2) ND 0 (by push_cast; omega) (by push_cast; omega)
  have hcb2 := countBumps_true (ND + 2) 0
  have hcnt : (0 : Int) + countBumps (fun i => decide ((i : Int) < (ND : Int) - 2)) ND 0
      + countBumps (fun _ => true) (ND + 2) 0 = 2 * (ND : Int) := by
    rw [hcb1, hcb2]; push_cast; ring
  rw [hcnt] at hA
  -- the blocks claimed so far
  have hTl := finds_length ND m
  have hL1l := finds_length (ND + 2) (finds ND m).2
  have hTown : Owned (finds ND m).2 ((finds ND m).1 ++ []) :=
    Owned_finds ND m [] (by omega) ⟨List.nodup_nil, by simp⟩
  rw [List.append_nil] at hTown
  have hnc1 := NumClear_finds ND m (by omega)
  have hLown := Owned_finds (ND + 2) (finds ND m).2 (finds ND m).1 (by push_cast; omega) hTown
  have hnc2 := NumClear_finds (ND + 2) (finds ND m).2 (by push_cast; omega)
  have hTsplit := take_append_two (finds ND m).1 (ND - 2) (by omega)
  have hk1 : ND - 2 + 1 = ND - 1 := by omega
  rw [hk1] at hTsplit
  generalize hTt : (finds ND m).1.take (ND - 2) = Tt at hTsplit
  generalize (finds ND m).1.getD (ND - 2) 0 = a at hTsplit
  generalize (finds ND m).1.getD (ND - 1) 0 = b at hTsplit
  have hTtl : Tt.length + 2 = ND := by
    rw [← hTt]; simp [hTl]; omega
  generalize (finds ND m).1 = T at *
  subst hTsplit
  generalize hL1 : (finds (ND + 2) (finds ND m).2).1 = L1 at *
  generalize hm2 : (finds (ND + 2) (finds ND m).2).2 = m2 at *
  have hra : readAt ND (Tt ++ [a, b]) ((ND : Int) - 2) = .ok a := by
    have := readAt_append ND Tt [b] a (by omega)
    have he : ((ND : Int) - 2) = (Tt.length : Int) := by omega
    rw [he]
    exact this
  have hrb : readAt ND (Tt ++ [a, b]) ((ND : Int) - 1) = .ok b := by
    have := readAt_append ND (Tt ++ [a]) [] b (by simp; omega)
    have he : ((ND : Int) - 1) = ((Tt ++ [a]).length : Int) := by simp; omega
    rw [he]
    simpa using this
  simp only [hra, hrb] at hA
  have haU : Used m2 a := hLown.2 a (by simp)
  obtain ⟨G, top1, m3, d3, c3, hrun, hG, htl, _, htopG, hdisk, hframe, _, _, hown⟩ :=
    allocOuter_spec ND (divRoundUp fileSize S) hmax
      (divRoundUp fileSize S - 2 * (ND : Int)).toNat 0 (List.replicate (ND + 2) 0) m2
      (WriteSector d a L1) (2 * (ND : Int)) (L1 ++ (Tt ++ [a, b]))
      (by omega) (by intro _; simp) (by simp)
      (by
        intro _
        have h3 : divRoundUp fileSize S - ((ND : Int) - 2) - ((ND : Int) + 2)
            = divRoundUp fileSize S - 2 * (ND : Int) := by ring
        rw [h3] at hfree
        rw [hnc2, hnc1]
        push_cast
        omega)
      hLown
  rw [hrun] at hA
  simp only [Except.ok.injEq, Prod.mk.injEq, true_and] at hA
  obtain ⟨rfl, rfl, rfl⟩ := hA
  refine ⟨rfl, rfl, ?_⟩
  exact layout_tier3_core ND S hS fileSize (divRoundUp fileSize S) rfl h0 ht2 Tt L1 top1 a b G
    m3 d3 hTtl hL1l htl hmax hG htopG hdisk
    (by rw [hframe a haU]; simp [WriteSector]) hown


/-! ## What a successful `Allocate` leaves behind: all tiers -/

theorem Allocate_layout (ND S : Nat) (hS : 0 < S) (hdr : FileHeader) (m : BitMap)
    (d : Disk) (fileSize : Int) (hlen : hdr.dataSectors.length = ND) (h0 : 0 ≤ fileSize)
    (hfree : blocksRequired ND S fileSize ≤ m.NumClear)
    (hdr1 : FileHeader) (m1 : BitMap) (d1 : Disk)
    (hA : Allocate ND S hdr m d fileSize = .ok (true, hdr1, m1, d1)) :
    hdr1.numBytes = fileSize ∧ hdr1.numSectors = divRoundUp fileSize S ∧
    ∃ data idx order, IsLayout ND S hdr1 m1 d1 data idx order := by
  unfold blocksRequired indexOverhead at hfree
  by_cases ht1 : fileSize ≤ MaxFileSize ND S
  · simp only [ht1, if_true] at hfree
    exact Allocate_layout_tier1 ND S hS hdr m d fileSize hlen h0 (by omega) ht1 hdr1 m1 d1 hA
  · simp only [ht1, if_false] at hfree
    by_cases ht2 : fileSize ≤ MaxFileSize2 ND S
    · simp only [ht2, if_true] at hfree
      exact Allocate_layout_tier2 ND S hS hdr m d fileSize hlen h0 hfree ht1 ht2 hdr1 m1 d1 hA
    · simp only [ht2, if_false] at hfree
      exact Allocate_layout_tier3 ND S hS hdr m d fileSize hlen h0 hfree ht2 hdr1 m1 d1 hA

theorem Layout_data_nodup {ND S : Nat} {hdr : FileHeader} {m : BitMap} {d : Disk}
    {data idx order : List Int} (h : IsLayout ND S hdr m d data idx order) : data.Nodup :=
  (List.nodup_append.mp h.2.2.2.1.1).1

theorem Layout_release {ND S : Nat} {hdr : FileHeader} {m : BitMap} {d : Disk}
    {data idx order : List Int} (h : IsLayout ND S hdr m d data idx order) :
    ∃ m2, Deallocate ND S hdr m d = .ok m2 ∧ (∀ x ∈ data ++ idx, m2.Test x = .ok false) ∧
      m2.NumClear = m.NumClear + (data.length + idx.length : Nat) := by
  obtain ⟨_, _, hperm, hown, hde, _, _⟩ := h
  obtain ⟨m2, h1, h2, h3, _, _⟩ := clearList_ok order m (Owned_perm hperm.symm hown)
  refine ⟨m2, by rw [hde, h1], fun x hx => Test_of_Free (h2 x (hperm.mem_iff.mpr hx)), ?_⟩
  rw [h3, hperm.length_eq, List.length_append]

/-! ## Distinct blocks -/

theorem tdiv_mul_cancel (k : Nat) (S : Nat) (hS : 0 < S) :
    Int.tdiv ((k : Int) * (S : Int)) (S : Int) = k := by
  rw [Int.tdiv_eq_ediv (by positivity) (by positivity)]
  exact Int.mul_ediv_cancel _ (by omega)

/-- C2: after a successful `Allocate` of `fileSize >= 0` bytes on a map holding the
blocks the specification asks for (data blocks plus index overhead), `ByteToSector`
returns a block for every offset in `[0, fileSize)`, two offsets get the same block
exactly when they lie in the same sector, and the set of blocks returned has
`ceil(fileSize / S)` elements. (A successful `Allocate` already implies
`fileSize <= MaxFileSize3`.) -/
theorem ByteToSector_distinct (ND S : Nat) (hS : 0 < S) (hdr : FileHeader) (freeMap : BitMap)
    (disk : Disk) (fileSize : Int) (hlen : hdr.dataSectors.length = ND) (h0 : 0 ≤ fileSize)
    (hfree : blocksRequired ND S fileSize ≤ freeMap.NumClear)
    (hdr1 : FileHeader) (m1 : BitMap) (d1 : Disk)
    (hA : Allocate ND S hdr freeMap disk fileSize = .ok (true, hdr1, m1, d1)) :
    (∀ o1 o2 : Int, 0 ≤ o1 → o1 < fileSize → 0 ≤ o2 → o2 < fileSize →
      ∃ b1 b2, ByteToSector ND S hdr1 d1 o1 = .ok b1 ∧ ByteToSector ND S hdr1 d1 o2 = .ok b2 ∧
        (b1 = b2 ↔ o1 / (S : Int) = o2 / (S : Int))) ∧
    Set.ncard {b : Int | ∃ o : Int, 0 ≤ o ∧ o < fileSize ∧ ByteToSector ND S hdr1 d1 o = .ok b}
      = (divRoundUp fileSize S).toNat := by
  obtain ⟨hnb, hnsec, data, idx, order, hlay⟩ :=
    Allocate_layout ND S hS hdr freeMap disk fileSize hlen h0 hfree hdr1 m1 d1 hA
  have hnd := Layout_data_nodup hlay
  obtain ⟨hbts, hdlen, _⟩ := hlay
  rw [hnb] at hbts
  rw [hnsec] at hdlen
  have hSi : (0 : Int) < (S : Int) := by exact_mod_cast hS
  constructor
  · intro o1 o2 h1 h1a h2 h2a
    obtain ⟨hk1, hb1⟩ := hbts o1 h1 h1a
    obtain ⟨hk2, hb2⟩ := hbts o2 h2 h2a
    refine ⟨_, _, hb1, hb2, ?_⟩
    rw [List.getD_eq_getElem?_getD, List.getD_eq_getElem?_getD, List.getElem?_eq_getElem hk1,
      List.getElem?_eq_getElem hk2]
    simp only [Option.getD_some]
    rw [hnd.getElem_inj_iff, ← Int.tdiv_eq_ediv h1 (le_of_lt hSi),
      ← Int.tdiv_eq_ediv h2 (le_of_lt hSi)]
    have e1 := (sector_lt o1 fileSize S h1 h1a hSi).1
    have e2 := (sector_lt o2 fileSize S h2 h2a hSi).1
    omega
  · have hset : {b : Int | ∃ o : Int, 0 ≤ o ∧ o < fileSize ∧ ByteToSector ND S hdr1 d1 o = .ok b}
        = ((data.toFinset : Finset Int) : Set Int) := by
      ext b
      simp only [Set.mem_setOf_eq, Finset.mem_coe, List.mem_toFinset]
      constructor
      · rintro ⟨o, ho1, ho2, hb⟩
        obtain ⟨hk, hb1⟩ := hbts o ho1 ho2
        rw [hb1] at hb
        injection hb with hb
        rw [← hb]
        exact getD_mem data _ hk
      · intro hb
        obtain ⟨k, hk, rfl⟩ := List.getElem_of_mem hb
        have hklt : (k : Int) * (S : Int) < fileSize := by
          by_contra hc
          have := (divRoundUp_le_iff fileSize S k h0 hSi).mpr (by omega)
          omega
        refine ⟨(k : Int) * (S : Int), by positivity, hklt, ?_⟩
        obtain ⟨_, hb1⟩ := hbts _ (by positivity) hklt
        rw [hb1, tdiv_mul_cancel k S hS]
        simp [List.getD_eq_getElem?_getD, List.getElem?_eq_getElem hk]
    rw [hset, Set.ncard_coe_Finset, List.toFinset_card_of_nodup hnd]
    omega


set_option maxRecDepth 100000 in
/-- The hypotheses of `ByteToSector_distinct` are met at `S = 128`, `NumDirect = 30` by a
Tier-3 file of 7900 bytes (62 sectors) on a map of one hundred free blocks: blocks 0..29
fill the table, blocks 30..61 the first leaf index block (stored in block 28), block 62
is the second-level leaf listing the data blocks 63 and 64, and the top index block is
stored in block 29. -/
theorem ByteToSector_distinct_witness :
    ((0 < 128) ∧ (⟨0, 0, List.replicate 30 0⟩ : FileHeader).dataSectors.length = 30 ∧
      (0 : Int) ≤ 7900 ∧ blocksRequired 30 128 7900 ≤ BitMap.NumClear (List.replicate 100 false) ∧
      Allocate 30 128 ⟨0, 0, List.replicate 30 0⟩ (List.replicate 100 false) (fun _ => []) 7900
        = .ok (true, ⟨7900, 62, (List.range 30).map (fun i => (i : Int))⟩,
            List.replicate 65 true ++ List.replicate 35 false,
            (WriteSector (WriteSector (WriteSector (fun _ => [])
          28 ((List.range 32).map (fun i => (i : Int) + 30)))
          62 ([63, 64] ++ List.replicate 30 0))
          29 (62 :: List.replicate 31 0)))) ∧
    ((∀ o1 o2 : Int, 0 ≤ o1 → o1 < 7900 → 0 ≤ o2 → o2 < 7900 →
      ∃ b1 b2,
        ByteToSector 30 128 ⟨7900, 62, (List.range 30).map (fun i => (i : Int))⟩
          (WriteSector (WriteSector (WriteSector (fun _ => [])
          28 ((List.range 32).map (fun i => (i : Int) + 30)))
          62 ([63, 64] ++ List.replicate 30 0))
          29 (62 :: List.replicate 31 0)) o1 = .ok b1 ∧
        ByteToSector 30 128 ⟨7900, 62, (List.range 30).map (fun i => (i : Int))⟩
          (WriteSector (WriteSector (WriteSector (fun _ => [])
          28 ((List.range 32).map (fun i => (i : Int) + 30)))
          62 ([63, 64] ++ List.replicate 30 0))
          29 (62 :: List.replicate 31 0)) o2 = .ok b2 ∧
        (b1 = b2 ↔ o1 / ((128 : Nat) : Int) = o2 / ((128 : Nat) : Int))) ∧
    Set.ncard {b : Int | ∃ o : Int, 0 ≤ o ∧ o < 7900 ∧
        ByteToSector 30 128 ⟨7900, 62, (List.range 30).map (fun i => (i : Int))⟩
          (WriteSector (WriteSector (WriteSector (fun _ => [])
          28 ((List.range 32).map (fun i => (i : Int) + 30)))
          62 ([63, 64] ++ List.replicate 30 0))
          29 (62 :: List.replicate 31 0)) o = .ok b}
      = (divRoundUp 7900 ((128 : Nat) : Int)).toNat) :=
  ⟨⟨by decide, rfl, by decide, by decide, rfl⟩,
    ByteToSector_distinct 30 128 (by decide) ⟨0, 0, List.replicate 30 0⟩ (List.replicate 100 false)
      (fun _ => []) 7900 rfl (by decide) (by decide) _ _ _ rfl⟩

/-! ## Releasing every block of the file -/

/-- C8: after a successful `Allocate` of `fileSize >= 0` bytes on a map holding the
blocks the specification asks for, `Deallocate` completes, and in the map it leaves
every block `ByteToSector` returned for an offset in `[0, numBytes)` is free, and so is
every index block: `table[NumDirect-1]` in Tier 2; `table[NumDirect-2]`,
`table[NumDirect-1]` and every in-use entry of the top index block in Tier 3. -/
theorem Deallocate_frees_all (ND S : Nat) (hS : 0 < S) (hdr : FileHeader) (freeMap : BitMap)
    (disk : Disk) (fileSize : Int) (hlen : hdr.dataSectors.length = ND) (h0 : 0 ≤ fileSize)
    (hfree : blocksRequired ND S fileSize ≤ freeMap.NumClear)
    (hdr1 : FileHeader) (m1 : BitMap) (d1 : Disk)
    (hA : Allocate ND S hdr freeMap disk fileSize = .ok (true, hdr1, m1, d1)) :
    ∃ m2, Deallocate ND S hdr1 m1 d1 = .ok m2 ∧
      (∀ o : Int, 0 ≤ o → o < hdr1.numBytes →
        ∃ b, ByteToSector ND S hdr1 d1 o = .ok b ∧ m2.Test b = .ok false) ∧
      (MaxFileSize ND S < hdr1.numBytes → hdr1.numBytes ≤ MaxFileSize2 ND S →
        ∃ b, readAt ND hdr1.dataSectors ((ND : Int) - 1) = .ok b ∧ m2.Test b = .ok false) ∧
      (MaxFileSize2 ND S < hdr1.numBytes →
        (∃ b, readAt ND hdr1.dataSectors ((ND : Int) - 2) = .ok b ∧ m2.Test b = .ok false) ∧
        (∃ b, readAt ND hdr1.dataSectors ((ND : Int) - 1) = .ok b ∧ m2.Test b = .ok false ∧
          ∀ g : Int, 0 ≤ g → g * ((ND : Int) + 2) < hdr1.numSectors - 2 * (ND : Int) →
            ∃ leaf, readAt (ND + 2) (ReadSector d1 b) g = .ok leaf ∧
              m2.Test leaf = .ok false)) := by
  obtain ⟨_, _, data, idx, order, hlay⟩ :=
    Allocate_layout ND S hS hdr freeMap disk fileSize hlen h0 hfree hdr1 m1 d1 hA
  obtain ⟨m2, hde, hfreed, _⟩ := Layout_release hlay
  obtain ⟨hbts, _, _, _, _, hi2, hi3⟩ := hlay
  refine ⟨m2, hde, ?_, ?_, ?_⟩
  · intro o ho1 ho2
    obtain ⟨hk, hb⟩ := hbts o ho1 ho2
    exact ⟨_, hb, hfreed _ (List.mem_append_left _ (getD_mem data _ hk))⟩
  · intro h1 h2
    obtain ⟨b, hb, hmem⟩ := hi2 h1 h2
    exact ⟨b, hb, hfreed _ (List.mem_append_right _ hmem)⟩
  · intro h1
    obtain ⟨⟨a, ha, hamem⟩, ⟨b, hb, hbmem, hleaves⟩⟩ := hi3 h1
    refine ⟨⟨a, ha, hfreed _ (List.mem_append_right _ hamem)⟩,
      ⟨b, hb, hfreed _ (List.mem_append_right _ hbmem), ?_⟩⟩
    intro g hg0 hg1
    obtain ⟨leaf, hl, hlmem⟩ := hleaves g hg0 hg1
    exact ⟨leaf, hl, hfreed _ (List.mem_append_right _ hlmem)⟩


set_option maxRecDepth 100000 in
/-- The hypotheses of `Deallocate_frees_all` are met at `S = 128`, `NumDirect = 30` by a
Tier-2 file of 3841 bytes (31 sectors) on a map of forty free blocks. -/
theorem Deallocate_frees_all_witness :
    ((0 < 128) ∧ (⟨0, 0, List.replicate 30 0⟩ : FileHeader).dataSectors.length = 30 ∧
      (0 : Int) ≤ 3841 ∧ blocksRequired 30 128 3841 ≤ BitMap.NumClear (List.replicate 40 false) ∧
      Allocate 30 128 ⟨0, 0, List.replicate 30 0⟩ (List.replicate 40 false) (fun _ => []) 3841
        = .ok (true, ⟨3841, 31, (List.range 30).map (fun i => (i : Int))⟩,
            List.replicate 33 true ++ List.replicate 7 false,
            WriteSector (fun _ => []) 29 ([30, 31, 32] ++ List.replicate 29 0))) ∧
    ∃ m2, Deallocate 30 128 ⟨3841, 31, (List.range 30).map (fun i => (i : Int))⟩
        (List.replicate 33 true ++ List.replicate 7 false)
        (WriteSector (fun _ => []) 29 ([30, 31, 32] ++ List.replicate 29 0)) = .ok m2 ∧
      (∀ o : Int, 0 ≤ o →
        o < (⟨3841, 31, (List.range 30).map (fun i => (i : Int))⟩ : FileHeader).numBytes →
        ∃ b, ByteToSector 30 128 ⟨3841, 31, (List.range 30).map (fun i => (i : Int))⟩
            (WriteSector (fun _ => []) 29 ([30, 31, 32] ++ List.replicate 29 0)) o = .ok b ∧
          m2.Test b = .ok false) ∧
      (MaxFileSize 30 128
          < (⟨3841, 31, (List.range 30).map (fun i => (i : Int))⟩ : FileHeader).numBytes →
        (⟨3841, 31, (List.range 30).map (fun i => (i : Int))⟩ : FileHeader).numBytes
          ≤ MaxFileSize2 30 128 →
        ∃ b, readAt 30
            (⟨3841, 31, (List.range 30).map (fun i => (i : Int))⟩ : FileHeader).dataSectors
            (((30 : Nat) : Int) - 1) = .ok b ∧ m2.Test b = .ok false) ∧
      (MaxFileSize2 30 128
          < (⟨3841, 31, (List.range 30).map (fun i => (i : Int))⟩ : FileHeader).numBytes →
        (∃ b, readAt 30
            (⟨3841, 31, (List.range 30).map (fun i => (i : Int))⟩ : FileHeader).dataSectors
            (((30 : Nat) : Int) - 2) = .ok b ∧ m2.Test b = .ok false) ∧
        (∃ b, readAt 30
            (⟨3841, 31, (List.range 30).map (fun i => (i : Int))⟩ : FileHeader).dataSectors
            (((30 : Nat) : Int) - 1) = .ok b ∧ m2.Test b = .ok false ∧
          ∀ g : Int, 0 ≤ g → g * (((30 : Nat) : Int) + 2)
              < (⟨3841, 31, (List.range 30).map (fun i => (i : Int))⟩ : FileHeader).numSectors
                - 2 * ((30 : Nat) : Int) →
            ∃ leaf, readAt (30 + 2)
                (ReadSector (WriteSector (fun _ => []) 29 ([30, 31, 32] ++ List.replicate 29 0)) b)
                g = .ok leaf ∧ m2.Test leaf = .ok false)) :=
  ⟨⟨by decide, rfl, by decide, by decide, rfl⟩,
    Deallocate_frees_all 30 128 (by decide) ⟨0, 0, List.replicate 30 0⟩ (List.replicate 40 false)
      (fun _ => []) 3841 rfl (by decide) (by decide) _ _ _ rfl⟩


/-! ## The fields set by `Allocate` -/

theorem Allocate_fields (ND S : Nat) (hdr : FileHeader) (m : BitMap) (d : Disk) (fileSize : Int)
    (flag : Bool) (hdr1 : FileHeader) (m1 : BitMap) (d1 : Disk)
    (hA : Allocate ND S hdr m d fileSize = .ok (flag, hdr1, m1, d1)) :
    hdr1.numBytes = fileSize ∧ hdr1.numSectors = divRoundUp fileSize S ∧
      (flag = true → fileSize ≤ MaxFileSize3 ND S) := by
  have h1 := MaxFileSize_le_MaxFileSize2 ND S
  have h2 := MaxFileSize2_le_MaxFileSize3 ND S
  unfold Allocate at hA
  simp only [] at hA
  repeat' split at hA
  all_goals cases hA
  all_goals refine ⟨rfl, rfl, ?_⟩
  all_goals first
    | (intro hc; exact absurd hc (by decide))
    | (intro _; omega)


/-! ## Too few free blocks for the data blocks -/

/-- C13: when the map has fewer free blocks than `ceil(fileSize / S)`, `Allocate`
returns `FALSE`, the free map (and the disk) is unchanged and the header's pointer table
is the one it had before the call; only `numBytes` and `numSectors` have been set. -/
theorem Allocate_short_of_data_blocks (ND S : Nat) (hdr : FileHeader) (freeMap : BitMap)
    (disk : Disk) (fileSize : Int) (h : freeMap.NumClear < divRoundUp fileSize S) :
    Allocate ND S hdr freeMap disk fileSize
      = .ok (false, ⟨fileSize, divRoundUp fileSize S, hdr.dataSectors⟩, freeMap, disk) := by
  unfold Allocate
  simp only [h, if_true]

/-- The hypothesis of `Allocate_short_of_data_blocks` is met at `S = 128`,
`NumDirect = 30` by a request of 1000 bytes (8 sectors) on a map with 5 free blocks. -/
theorem Allocate_short_of_data_blocks_witness :
    BitMap.NumClear [true, false, false, true, false, false, false] < divRoundUp 1000 ((128 : Nat) : Int) ∧
    Allocate 30 128 ⟨7, 1, List.replicate 30 9⟩ [true, false, false, true, false, false, false]
        (fun _ => []) 1000
      = .ok (false, ⟨1000, divRoundUp 1000 ((128 : Nat) : Int),
            (⟨7, 1, List.replicate 30 9⟩ : FileHeader).dataSectors⟩,
          [true, false, false, true, false, false, false], fun _ => []) :=
  ⟨by decide, Allocate_short_of_data_blocks 30 128 _ _ _ 1000 (by decide)⟩

/-! ## The record invariant on `numBytes` -/

theorem Allocate_rejects (ND S : Nat) (hdr : FileHeader) (m : BitMap) (d : Disk)
    (fileSize : Int) (hlen : hdr.dataSectors.length = ND) (h : MaxFileSize3 ND S < fileSize)
    (hc : divRoundUp fileSize S ≤ m.NumClear) :
    Allocate ND S hdr m d fileSize
      = .ok (false, ⟨fileSize, divRoundUp fileSize S, List.replicate ND 0⟩, m, d) := by
  have h1 := MaxFileSize_le_MaxFileSize2 ND S
  have h2 := MaxFileSize2_le_MaxFileSize3 ND S
  have n0 : ¬ m.NumClear < divRoundUp fileSize S := by omega
  have n1 : ¬ fileSize ≤ MaxFileSize ND S := by omega
  have n2 : ¬ fileSize ≤ MaxFileSize2 ND S := by omega
  have n3 : ¬ fileSize ≤ MaxFileSize3 ND S := by omega
  unfold Allocate
  simp only [n0, if_false, zeroLoop_eq ND hdr.dataSectors hlen, n1, n2, n3]

/-- C14, as stated, fails: at `S = 128`, `NumDirect = 30` the request
`fileSize = 138753 = MaxFileSize3 + 1` (1085 sectors) on a map of 2000 free blocks
returns `FALSE` ("file too big") and leaves `numBytes = 138753`, above `MaxFileSize3`. -/
theorem Allocate_failed_numBytes_above_ceiling :
    ∃ h m d, Allocate 30 128 ⟨0, 0, List.replicate 30 0⟩ (List.replicate 2000 false)
        (fun _ => []) 138753 = .ok (false, h, m, d) ∧
      h.numBytes = 138753 ∧ ¬ (h.numBytes ≤ MaxFileSize3 30 128) :=
  ⟨_, _, _,
    Allocate_rejects 30 128 ⟨0, 0, List.replicate 30 0⟩ (List.replicate 2000 false) (fun _ => [])
      138753 rfl (by decide)
      (by
        have h1 : divRoundUp 138753 ((128 : Nat) : Int) = 1085 := by decide
        have h2 : BitMap.NumClear (List.replicate 2000 false) = 2000 := by
          unfold BitMap.NumClear
          rw [List.count_replicate_self]
          rfl
        rw [h1, h2]
        decide),
    rfl, by decide⟩

/-- C14, amended: whenever `Allocate(freeMap, fileSize)` returns for `fileSize >= 0`,
the header has `numBytes = fileSize`, hence `0 <= numBytes`; when it returns `TRUE`,
`numBytes <= MaxFileSize3` holds as well. -/
theorem Allocate_numBytes_bounds (ND S : Nat) (hdr : FileHeader) (freeMap : BitMap)
    (disk : Disk) (fileSize : Int) (h0 : 0 ≤ fileSize)
    (flag : Bool) (hdr1 : FileHeader) (m1 : BitMap) (d1 : Disk)
    (hA : Allocate ND S hdr freeMap disk fileSize = .ok (flag, hdr1, m1, d1)) :
    hdr1.numBytes = fileSize ∧ 0 ≤ hdr1.numBytes ∧
      (flag = true → hdr1.numBytes ≤ MaxFileSize3 ND S) := by
  obtain ⟨h1, _, h3⟩ := Allocate_fields ND S hdr freeMap disk fileSize flag hdr1 m1 d1 hA
  exact ⟨h1, by omega, fun hf => by rw [h1]; exact h3 hf⟩

set_option maxRecDepth 100000 in
/-- The hypotheses of `Allocate_numBytes_bounds` are met at `S = 128`, `NumDirect = 30`
by a successful request of 300 bytes. -/
theorem Allocate_numBytes_bounds_witness :
    ((0 : Int) ≤ 300 ∧
      Allocate 30 128 ⟨0, 0, List.replicate 30 0⟩ (List.replicate 10 false) (fun _ => []) 300
        = .ok (true, ⟨300, 3, [0, 1, 2] ++ List.replicate 27 0⟩,
            [true, true, true] ++ List.replicate 7 false, fun _ => [])) ∧
    ((⟨300, 3, [0, 1, 2] ++ List.replicate 27 0⟩ : FileHeader).numBytes = 300 ∧
      0 ≤ (⟨300, 3, [0, 1, 2] ++ List.replicate 27 0⟩ : FileHeader).numBytes ∧
      (true = true →
        (⟨300, 3, [0, 1, 2] ++ List.replicate 27 0⟩ : FileHeader).numBytes ≤ MaxFileSize3 30 128)) :=
  ⟨⟨by decide, rfl⟩,
    Allocate_numBytes_bounds 30 128 ⟨0, 0, List.replicate 30 0⟩ (List.replicate 10 false)
      (fun _ => []) 300 (by decide) true _ _ _ rfl⟩

/-! ## File length and sector count -/

theorem divRoundUp_eq_ceil (n s : Int) (hn : 0 ≤ n) (hs : 0 < s) :
    divRoundUp n s = ⌈(n : ℚ) / (s : ℚ)⌉ := by
  have hsq : (0 : ℚ) < (s : ℚ) := by exact_mod_cast hs
  apply le_antisymm
  · rw [divRoundUp_le_iff n s _ hn hs]
    have h1 := Int.le_ceil ((n : ℚ) / (s : ℚ))
    rw [div_le_iff₀ hsq] at h1
    exact_mod_cast h1
  · rw [Int.ceil_le, div_le_iff₀ hsq]
    have h1 := (divRoundUp_le_iff n s (divRoundUp n s) hn hs).mp (le_refl _)
    exact_mod_cast h1

/-- C15: whenever `Allocate(freeMap, fileSize)` returns for `fileSize >= 0`,
`FileLength()` is `fileSize` and `numSectors` is `ceil(fileSize / S)`. `Deallocate` and
`ByteToSector` contain no assignment to a header field: they take the header as an
input and yield only the free map, respectively the block number, so the header after
them, and with it `numBytes` and `numSectors`, is the header before them. -/
theorem Allocate_sets_length (ND S : Nat) (hS : 0 < S) (hdr : FileHeader) (freeMap : BitMap)
    (disk : Disk) (fileSize : Int) (h0 : 0 ≤ fileSize)
    (flag : Bool) (hdr1 : FileHeader) (m1 : BitMap) (d1 : Disk)
    (hA : Allocate ND S hdr freeMap disk fileSize = .ok (flag, hdr1, m1, d1)) :
    FileLength hdr1 = fileSize ∧ hdr1.numSectors = ⌈(fileSize : ℚ) / (S : ℚ)⌉ := by
  obtain ⟨h1, h2, _⟩ := Allocate_fields ND S hdr freeMap disk fileSize flag hdr1 m1 d1 hA
  refine ⟨h1, ?_⟩
  rw [h2, divRoundUp_eq_ceil fileSize S h0 (by exact_mod_cast hS)]
  norm_cast

set_option maxRecDepth 100000 in
/-- The hypotheses of `Allocate_sets_length` are met at `S = 128`, `NumDirect = 30` by a
Tier-2 request of 5000 bytes on a map of fifty free blocks. -/
theorem Allocate_sets_length_witness :
    ((0 < 128) ∧ (0 : Int) ≤ 5000 ∧
      Allocate 30 128 ⟨0, 0, List.replicate 30 0⟩ (List.replicate 50 false) (fun _ => []) 5000
        = .ok (true, ⟨5000, 40, (List.range 30).map (fun i => (i : Int))⟩,
            List.replicate 42 true ++ List.replicate 8 false,
            WriteSector (fun _ => []) 29
              ((List.range 12).map (fun i => (i : Int) + 30) ++ List.replicate 20 0))) ∧
    (FileLength ⟨5000, 40, (List.range 30).map (fun i => (i : Int))⟩ = 5000 ∧
      (⟨5000, 40, (List.range 30).map (fun i => (i : Int))⟩ : FileHeader).numSectors
        = ⌈((5000 : Int) : ℚ) / ((128 : Nat) : ℚ)⌉) :=
  ⟨⟨by decide, by decide, rfl⟩,
    Allocate_sets_length 30 128 (by decide) ⟨0, 0, List.replicate 30 0⟩ (List.replicate 50 false)
      (fun _ => []) 5000 (by decide) true _ _ _ rfl⟩


/-! ## The scenario `fileSize = 5000` at `S = 128`, `NumDirect = 30` -/

/-- C11: at `S = 128`, `NumDirect = 30`, `Allocate(5000)` returns with `numBytes = 5000`
and `numSectors = 40` (returning `TRUE` exactly when the map has 40 free blocks), the
file is Tier 2 (`MaxFileSize < 5000 <= MaxFileSize2`), and `ByteToSector` resolves the
sectors 0..28 from `table[0..28]` and the sectors 29..39 from the entries 0..10 of the
index block stored at `table[29]`. -/
theorem Allocate_5000_tier2 (hdr : FileHeader) (freeMap : BitMap) (disk : Disk) :
    ∃ flag h m d, Allocate 30 128 hdr freeMap disk 5000 = .ok (flag, h, m, d) ∧
      (flag = true ↔ 40 ≤ freeMap.NumClear) ∧
      h.numBytes = 5000 ∧ h.numSectors = 40 ∧
      MaxFileSize 30 128 < h.numBytes ∧ h.numBytes ≤ MaxFileSize2 30 128 ∧
      ∀ offset : Int, 0 ≤ offset → offset < 5000 →
        (0 ≤ Int.tdiv offset 128 ∧ Int.tdiv offset 128 ≤ 39) ∧
        (Int.tdiv offset 128 < 29 →
          ByteToSector 30 128 h d offset = readAt 30 h.dataSectors (Int.tdiv offset 128)) ∧
        (29 ≤ Int.tdiv offset 128 →
          (0 ≤ Int.tdiv offset 128 - 29 ∧ Int.tdiv offset 128 - 29 ≤ 10) ∧
          ByteToSector 30 128 h d offset =
            match readAt 30 h.dataSectors 29 with
            | .error e => .error e
            | .ok s => readAt 32 (ReadSector d s) (Int.tdiv offset 128 - 29)) := by
  have hns : divRoundUp 5000 ((128 : Nat) : Int) = 40 := by decide
  have t1 : ¬ ((5000 : Int) ≤ MaxFileSize 30 128) := by decide
  have t1a : MaxFileSize 30 128 < (5000 : Int) := by decide
  have t2 : (5000 : Int) ≤ MaxFileSize2 30 128 := by decide
  have hbts : ∀ (h : FileHeader) (d : Disk), h.numBytes = 5000 →
      ∀ offset : Int, 0 ≤ offset → offset < 5000 →
        (0 ≤ Int.tdiv offset 128 ∧ Int.tdiv offset 128 ≤ 39) ∧
        (Int.tdiv offset 128 < 29 →
          ByteToSector 30 128 h d offset = readAt 30 h.dataSectors (Int.tdiv offset 128)) ∧
        (29 ≤ Int.tdiv offset 128 →
          (0 ≤ Int.tdiv offset 128 - 29 ∧ Int.tdiv offset 128 - 29 ≤ 10) ∧
          ByteToSector 30 128 h d offset =
            match readAt 30 h.dataSectors 29 with
            | .error e => .error e
            | .ok s => readAt 32 (ReadSector d s) (Int.tdiv offset 128 - 29)) := by
    intro h d hb offset ho1 ho2
    have hsec := sector_lt offset 5000 128 ho1 ho2 (by decide)
    have hns1 : divRoundUp 5000 128 = 40 := by decide
    rw [hns1] at hsec
    refine ⟨⟨hsec.1, by omega⟩, ?_, ?_⟩
    · intro hlt
      have hlt1 : Int.tdiv offset ((128 : Nat) : Int) < ((30 : Nat) : Int) - 1 := by
        push_cast; omega
      unfold ByteToSector
      simp only [hb, t1, t2, if_true, if_false, hlt1]
      rfl
    · intro hge
      have hge1 : ¬ Int.tdiv offset ((128 : Nat) : Int) < ((30 : Nat) : Int) - 1 := by
        push_cast; omega
      refine ⟨⟨by omega, by omega⟩, ?_⟩
      unfold ByteToSector
      simp only [hb, t1, t2, if_true, if_false, hge1]
      rfl
  unfold Allocate
  simp only [hns]
  by_cases hc : freeMap.NumClear < 40
  · simp only [hc, if_true]
    exact ⟨false, _, _, _, rfl, ⟨fun h => absurd h (by decide), fun h => absurd h (by omega)⟩, rfl, rfl, t1a, t2,
      hbts _ _ rfl⟩
  · simp only [hc, if_false, t1, t2, if_true]
    obtain ⟨t0, ht0⟩ := zeroLoop_ok 30 30 0 hdr.dataSectors (by omega)
    obtain ⟨⟨tb, m1⟩, h1⟩ := findLoop_ok 30 30 0 t0 freeMap (by omega)
    obtain ⟨⟨lf, m2⟩, h2⟩ := findLoop_ok (30 + 2) 12 0 (List.replicate (30 + 2) 0) m1 (by omega)
    have h2a : findLoop (30 + 2) (40 - (((30 : Nat) : Int) - 2)).toNat 0
        (List.replicate (30 + 2) 0) m1 = .ok (lf, m2) := h2
    have hr : readAt 30 tb (((30 : Nat) : Int) - 1) = .ok (tb.getD 29 0) := by
      simp [readAt]
    simp only [ht0, h1, h2a, hr]
    exact ⟨true, _, _, _, rfl, ⟨fun _ => by omega, fun _ => rfl⟩, rfl, rfl, t1a, t2, hbts _ _ rfl⟩

/-! ## Unused table slots in Tier 1 -/

/-- C17: for `0 <= fileSize <= MaxFileSize` and a map with at least `ceil(fileSize / S)`
free blocks, `Allocate` returns `TRUE` and every table slot `i` with
`numSectors <= i < NumDirect` holds 0, whatever the table held before the call. -/
theorem Allocate_tier1_trailing_zero (ND S : Nat) (hS : 0 < S) (hdr : FileHeader)
    (freeMap : BitMap) (disk : Disk) (fileSize : Int) (hlen : hdr.dataSectors.length = ND)
    (h0 : 0 ≤ fileSize) (ht : fileSize ≤ MaxFileSize ND S)
    (hfree : divRoundUp fileSize S ≤ freeMap.NumClear) :
    ∃ hdr1 m1 d1, Allocate ND S hdr freeMap disk fileSize = .ok (true, hdr1, m1, d1) ∧
      ∀ i : Int, hdr1.numSectors ≤ i → i < (ND : Int) →
        readAt ND hdr1.dataSectors i = .ok 0 := by
  have hnn := divRoundUp_nonneg fileSize S h0 (by exact_mod_cast hS)
  refine ⟨_, _, _, Allocate_tier1_eq ND S hS hdr freeMap disk fileSize hlen h0 hfree ht, ?_⟩
  intro i hi1 hi2
  have hi1a : divRoundUp fileSize S ≤ i := hi1
  rw [readAt_ok ND _ i (by omega) hi2]
  have hFl := finds_length (divRoundUp fileSize S).toNat freeMap
  dsimp only
  rw [List.getD_append_right _ _ _ _ (by rw [hFl]; omega)]
  congr 1
  rw [List.getD_eq_getElem?_getD, List.getElem?_replicate]
  split <;> rfl

set_option maxRecDepth 100000 in
/-- The hypotheses of `Allocate_tier1_trailing_zero` are met at `S = 128`,
`NumDirect = 30` by a request of 300 bytes on a header whose table held 9 in every
slot. -/
theorem Allocate_tier1_trailing_zero_witness :
    ((0 < 128) ∧ (⟨7, 1, List.replicate 30 9⟩ : FileHeader).dataSectors.length = 30 ∧
      (0 : Int) ≤ 300 ∧ (300 : Int) ≤ MaxFileSize 30 128 ∧
      divRoundUp 300 ((128 : Nat) : Int) ≤ BitMap.NumClear (List.replicate 10 false)) ∧
    ∃ hdr1 m1 d1, Allocate 30 128 ⟨7, 1, List.replicate 30 9⟩ (List.replicate 10 false)
        (fun _ => []) 300 = .ok (true, hdr1, m1, d1) ∧
      ∀ i : Int, hdr1.numSectors ≤ i → i < ((30 : Nat) : Int) →
        readAt 30 hdr1.dataSectors i = .ok 0 :=
  ⟨⟨by decide, rfl, by decide, by decide, by decide⟩,
    Allocate_tier1_trailing_zero 30 128 (by decide) ⟨7, 1, List.replicate 30 9⟩
      (List.replicate 10 false) (fun _ => []) 300 rfl (by decide) (by decide) (by decide)⟩

/-! ## Further concrete runs at `S = 128`, `NumDirect = 30` -/

set_option maxRecDepth 100000 in
/-- C18 fails at the top of Tier 2: for `fileSize = 7681` (61 sectors, within
`[0, MaxFileSize3]`) the loop filling the Tier-2 index block runs
`numSectors - (NumDirect - 2) = 33` times on an array of
`PointersPerIndexBlock = 32` entries, so its last write uses index 32 and falls outside
the array. -/
theorem Allocate_7681_write_out_of_bounds :
    ((0 : Int) ≤ 7681 ∧ (7681 : Int) ≤ MaxFileSize3 30 128) ∧
    (divRoundUp 7681 ((128 : Nat) : Int) - (((30 : Nat) : Int) - 2)).toNat = 33 ∧
    PointersPerIndexBlock 30 = 32 ∧
    findLoop (PointersPerIndexBlock 30) 33 0 (List.replicate 32 0) (List.replicate 34 false)
      = .error .outOfBounds ∧
    Allocate 30 128 ⟨0, 0, List.replicate 30 0⟩ (List.replicate 64 false) (fun _ => []) 7681
      = .error .outOfBounds :=
  ⟨by decide, by decide, rfl, rfl, rfl⟩

set_option maxRecDepth 100000 in
/-- C20 fails in Tier 2 on a map without room for the index block: with 31 free blocks
`Allocate(3841)` returns `TRUE`, having stored the `-1` of an unsuccessful `Find` in
slot 1 of the index block; the following `Deallocate` releases slot 0, then tests block
`-1` and fails its assertion. -/
theorem Allocate_3841_Deallocate_asserts :
    ∃ h m d, Allocate 30 128 ⟨0, 0, List.replicate 30 0⟩ (List.replicate 31 false)
        (fun _ => []) 3841 = .ok (true, h, m, d) ∧
      readAt 30 h.dataSectors 29 = .ok 29 ∧
      readAt 32 (ReadSector d 29) 0 = .ok 30 ∧
      readAt 32 (ReadSector d 29) 1 = .ok (-1) ∧
      Deallocate 30 128 h m d = .error .assertion :=
  ⟨_, _, _, rfl, rfl, rfl, rfl, rfl⟩


/-! ## Array accesses of `ByteToSector` -/

/-- C19: with `S > 0` and `NumDirect >= 2`, for every header with
`numBytes <= MaxFileSize3` and every offset with `0 <= offset < numBytes`, no array
access of `ByteToSector` is out of bounds: the call returns a block number instead of
stopping at an access outside `0 .. NumDirect-1` (table) or `0 .. NumDirect+1` (index
blocks). In particular the sector lies in `[0, ceil(numBytes / S))` and the Tier-3
quotient `(sector - 2*NumDirect) / (NumDirect + 2)` and remainder lie in
`[0, NumDirect + 2)`. -/
theorem ByteToSector_in_bounds (ND S : Nat) (hS : 0 < S) (hND : 2 ≤ ND) (hdr : FileHeader)
    (disk : Disk) (offset : Int) (h0 : 0 ≤ offset) (h1 : offset < hdr.numBytes)
    (h3 : hdr.numBytes ≤ MaxFileSize3 ND S) :
    (∃ b, ByteToSector ND S hdr disk offset = .ok b) ∧
    (0 ≤ Int.tdiv offset S ∧ Int.tdiv offset S < divRoundUp hdr.numBytes S) ∧
    (hdr.numBytes ≤ MaxFileSize ND S → Int.tdiv offset S < (ND : Int)) ∧
    (hdr.numBytes ≤ MaxFileSize2 ND S →
      Int.tdiv offset S - ((ND : Int) - 1) < (ND : Int) + 2) ∧
    (2 * (ND : Int) ≤ Int.tdiv offset S →
      (0 ≤ Int.tdiv (Int.tdiv offset S - 2 * (ND : Int)) ((ND : Int) + 2) ∧
        Int.tdiv (Int.tdiv offset S - 2 * (ND : Int)) ((ND : Int) + 2) < (ND : Int) + 2) ∧
      (0 ≤ Int.tmod (Int.tdiv offset S - 2 * (ND : Int)) ((ND : Int) + 2) ∧
        Int.tmod (Int.tdiv offset S - 2 * (ND : Int)) ((ND : Int) + 2) < (ND : Int) + 2)) := by
  have hSi : (0 : Int) < (S : Int) := by exact_mod_cast hS
  have hnb : 0 ≤ hdr.numBytes := by omega
  obtain ⟨hs0, hs1⟩ := sector_lt offset hdr.numBytes S h0 h1 hSi
  have hmax := (tier3_iff ND S hdr.numBytes hnb hS).mp h3
  have hb1 : hdr.numBytes ≤ MaxFileSize ND S → Int.tdiv offset S < (ND : Int) := by
    intro h
    have := (tier1_iff ND S hdr.numBytes hnb hS).mp h
    omega
  have hb2 : hdr.numBytes ≤ MaxFileSize2 ND S →
      Int.tdiv offset S - ((ND : Int) - 1) < (ND : Int) + 2 := by
    intro h
    have := (tier2_iff ND S hdr.numBytes hnb hS).mp h
    omega
  have hb3 : 2 * (ND : Int) ≤ Int.tdiv offset S →
      (0 ≤ Int.tdiv (Int.tdiv offset S - 2 * (ND : Int)) ((ND : Int) + 2) ∧
        Int.tdiv (Int.tdiv offset S - 2 * (ND : Int)) ((ND : Int) + 2) < (ND : Int) + 2) ∧
      (0 ≤ Int.tmod (Int.tdiv offset S - 2 * (ND : Int)) ((ND : Int) + 2) ∧
        Int.tmod (Int.tdiv offset S - 2 * (ND : Int)) ((ND : Int) + 2) < (ND : Int) + 2) := by
    intro h
    have hw : (0 : Int) < (ND : Int) + 2 := by omega
    have ht : 0 ≤ Int.tdiv offset S - 2 * (ND : Int) := by omega
    rw [Int.tdiv_eq_ediv ht (le_of_lt hw), Int.tmod_eq_emod ht (le_of_lt hw)]
    refine ⟨⟨Int.ediv_nonneg ht (le_of_lt hw), ?_⟩,
      ⟨Int.emod_nonneg _ (ne_of_gt hw), Int.emod_lt_of_pos _ hw⟩⟩
    exact Int.ediv_lt_of_lt_mul hw (by omega)
  refine ⟨?_, ⟨hs0, hs1⟩, hb1, hb2, hb3⟩
  unfold ByteToSector
  simp only []
  by_cases t1 : hdr.numBytes ≤ MaxFileSize ND S
  · simp only [t1, if_true]
    exact ⟨_, readAt_ok ND _ _ hs0 (hb1 t1)⟩
  · simp only [t1, if_false]
    by_cases t2 : hdr.numBytes ≤ MaxFileSize2 ND S
    · simp only [t2, if_true]
      by_cases s1 : Int.tdiv offset S < (ND : Int) - 1
      · simp only [s1, if_true]
        exact ⟨_, readAt_ok ND _ _ hs0 (by omega)⟩
      · simp only [s1, if_false]
        rw [readAt_ok ND _ _ (by omega) (by omega)]
        exact ⟨_, readAt_ok (ND + 2) _ _ (by omega) (by have := hb2 t2; push_cast; omega)⟩
    · simp only [t2, if_false]
      by_cases s1 : Int.tdiv offset S < (ND : Int) - 2
      · simp only [s1, if_true]
        exact ⟨_, readAt_ok ND _ _ hs0 (by omega)⟩
      · simp only [s1, if_false]
        by_cases s2 : Int.tdiv offset S < 2 * (ND : Int)
        · simp only [s2, if_true]
          rw [readAt_ok ND _ _ (by omega) (by omega)]
          exact ⟨_, readAt_ok (ND + 2) _ _ (by omega) (by push_cast; omega)⟩
        · simp only [s2, if_false]
          obtain ⟨⟨q0, q1⟩, ⟨r0, r1⟩⟩ := hb3 (by omega)
          rw [readAt_ok ND _ _ (by omega) (by omega)]
          simp only []
          rw [readAt_ok (ND + 2) _ _ q0 (by push_cast; omega)]
          exact ⟨_, readAt_ok (ND + 2) _ _ r0 (by push_cast; omega)⟩

/-- The hypotheses of `ByteToSector_in_bounds` are met at `S = 128`, `NumDirect = 30` by
offset 9000 of a Tier-3 header of 10000 bytes. -/
theorem ByteToSector_in_bounds_witness :
    ((0 < 128) ∧ 2 ≤ 30 ∧ (0 : Int) ≤ 9000 ∧
      (9000 : Int) < (⟨10000, 79, List.replicate 30 0⟩ : FileHeader).numBytes ∧
      (⟨10000, 79, List.replicate 30 0⟩ : FileHeader).numBytes ≤ MaxFileSize3 30 128) ∧
    ((∃ b, ByteToSector 30 128 ⟨10000, 79, List.replicate 30 0⟩ (fun _ => []) 9000 = .ok b) ∧
    (0 ≤ Int.tdiv 9000 ((128 : Nat) : Int) ∧ Int.tdiv 9000 ((128 : Nat) : Int)
      < divRoundUp (⟨10000, 79, List.replicate 30 0⟩ : FileHeader).numBytes ((128 : Nat) : Int)) ∧
    ((⟨10000, 79, List.replicate 30 0⟩ : FileHeader).numBytes ≤ MaxFileSize 30 128 →
      Int.tdiv 9000 ((128 : Nat) : Int) < ((30 : Nat) : Int)) ∧
    ((⟨10000, 79, List.replicate 30 0⟩ : FileHeader).numBytes ≤ MaxFileSize2 30 128 →
      Int.tdiv 9000 ((128 : Nat) : Int) - (((30 : Nat) : Int) - 1) < ((30 : Nat) : Int) + 2) ∧
    (2 * ((30 : Nat) : Int) ≤ Int.tdiv 9000 ((128 : Nat) : Int) →
      (0 ≤ Int.tdiv (Int.tdiv 9000 ((128 : Nat) : Int) - 2 * ((30 : Nat) : Int))
            (((30 : Nat) : Int) + 2) ∧
        Int.tdiv (Int.tdiv 9000 ((128 : Nat) : Int) - 2 * ((30 : Nat) : Int))
            (((30 : Nat) : Int) + 2) < ((30 : Nat) : Int) + 2) ∧
      (0 ≤ Int.tmod (Int.tdiv 9000 ((128 : Nat) : Int) - 2 * ((30 : Nat) : Int))
            (((30 : Nat) : Int) + 2) ∧
        Int.tmod (Int.tdiv 9000 ((128 : Nat) : Int) - 2 * ((30 : Nat) : Int))
            (((30 : Nat) : Int) + 2) < ((30 : Nat) : Int) + 2))) :=
  ⟨⟨by decide, by decide, by decide, by decide, by decide⟩,
    ByteToSector_in_bounds 30 128 (by decide) (by decide) ⟨10000, 79, List.replicate 30 0⟩
      (fun _ => []) 9000 (by decide) (by decide) (by decide)⟩


/-! ## A second `Deallocate` -/

theorem release_ok_iff {m m1 : BitMap} {b : Int} (h : release m b = .ok m1) :
    Used m b ∧ m1 = m.set b.toNat false := by
  unfold release BitMap.Test BitMap.Clear at h
  by_cases hr : 0 ≤ b ∧ b < (m.length : Int)
  · simp only [hr, and_self, if_true] at h
    by_cases ht : m.getD b.toNat false = true
    · simp only [ht, if_true, Except.ok.injEq] at h
      refine ⟨⟨hr.1, ?_⟩, h.symm⟩
      have hlt : b.toNat < m.length := by omega
      rw [List.getD_eq_getElem?_getD, List.getElem?_eq_getElem hlt] at ht
      rw [List.getElem?_eq_getElem hlt]
      simpa using ht
    · simp only [ht, if_false] at h
      cases h
  · simp only [hr, if_false] at h
    cases h

theorem release_Free {m m1 : BitMap} {b : Int} (h : release m b = .ok m1) :
    Free m1 b ∧ ∀ y, Free m y → Free m1 y := by
  obtain ⟨hu, rfl⟩ := release_ok_iff h
  exact ⟨Free_after_release hu, fun y hy => Free_set_false _ hy⟩

theorem release_of_Free {m : BitMap} {b : Int} (h : Free m b) :
    release m b = .error .assertion := by
  simp [release, Test_of_Free h]

theorem clearLoop_Free (size : Nat) (a : List Int) (n i : Nat) (m m2 : BitMap)
    (h : clearLoop size a n i m = .ok m2) : ∀ y, Free m y → Free m2 y := by
  induction n generalizing i m with
  | zero =>
    simp only [clearLoop, Except.ok.injEq] at h
    subst h
    exact fun _ hy => hy
  | succ n ih =>
    simp only [clearLoop] at h
    split at h
    · cases h
    · split at h
      · cases h
      · next b _ m1 hrel =>
        intro y hy
        exact ih _ _ h y ((release_Free hrel).2 y hy)

theorem clearLoop_twice (size : Nat) (a : List Int) (n i : Nat) (m m2 m3 : BitMap)
    (h : clearLoop size a (n + 1) i m = .ok m2) (hsub : ∀ y, Free m2 y → Free m3 y) :
    clearLoop size a (n + 1) i m3 = .error .assertion := by
  simp only [clearLoop] at h ⊢
  split at h
  · cases h
  · next b hrd =>
    split at h
    · cases h
    · next m1 hrel =>
      have hb := hsub b (clearLoop_Free _ _ _ _ _ _ h b (release_Free hrel).1)
      simp only [release_of_Free hb]

theorem deallocInner_Free (ND : Nat) (ns : Int) (sectors : List Int) (k j : Nat)
    (m : BitMap) (c : Int) (r : BitMap × Int)
    (h : deallocInner ND ns sectors k j m c = .ok r) : ∀ y, Free m y → Free r.1 y := by
  induction k generalizing j m c with
  | zero =>
    simp only [deallocInner, Except.ok.injEq] at h
    subst h
    exact fun _ hy => hy
  | succ k ih =>
    simp only [deallocInner] at h
    split at h
    · split at h
      · cases h
      · next m1 hrel =>
        intro y hy
        exact ih _ _ _ h y ((release_Free hrel).2 y hy)
    · simp only [Except.ok.injEq] at h
      subst h
      exact fun _ hy => hy

theorem deallocInner_twice (ND : Nat) (ns : Int) (sectors : List Int) (k j : Nat)
    (m m3 : BitMap) (c : Int) (r : BitMap × Int) (hg : j < ND + 2 ∧ c < ns)
    (h : deallocInner ND ns sectors (k + 1) j m c = .ok r)
    (hsub : ∀ y, Free r.1 y → Free m3 y) :
    deallocInner ND ns sectors (k + 1) j m3 c = .error .assertion := by
  simp only [deallocInner, hg, and_self, if_true] at h ⊢
  split at h
  · cases h
  · next m1 hrel =>
    have hb := hsub _ (deallocInner_Free _ _ _ _ _ _ _ _ h _ (release_Free hrel).1)
    simp only [release_of_Free hb]

theorem deallocOuter_Free (ND : Nat) (ns : Int) (d : Disk) (top : List Int) (f i : Nat)
    (m : BitMap) (c : Int) (r : BitMap × Int)
    (h : deallocOuter ND ns d top f i m c = .ok r) : ∀ y, Free m y → Free r.1 y := by
  induction f generalizing i m c with
  | zero =>
    simp only [deallocOuter, Except.ok.injEq] at h
    subst h
    exact fun _ hy => hy
  | succ f ih =>
    simp only [deallocOuter] at h
    split at h
    · split at h
      · cases h
      · split at h
        · cases h
        · next leaf _ _ m1 c1 hin =>
          split at h
          · cases h
          · next m2 hrel =>
            intro y hy
            exact ih _ _ _ h y ((release_Free hrel).2 y
              (deallocInner_Free _ _ _ _ _ _ _ _ hin y hy))
    · simp only [Except.ok.injEq] at h
      subst h
      exact fun _ hy => hy

theorem deallocOuter_twice (ND : Nat) (ns : Int) (d : Disk) (top : List Int) (f i : Nat)
    (m m3 : BitMap) (c : Int) (r : BitMap × Int) (hc : c < ns)
    (h : deallocOuter ND ns d top (f + 1) i m c = .ok r)
    (hsub : ∀ y, Free r.1 y → Free m3 y) :
    deallocOuter ND ns d top (f + 1) i m3 c = .error .assertion := by
  simp only [deallocOuter, hc, if_true] at h ⊢
  split at h
  · cases h
  · next leaf hrd =>
    split at h
    · cases h
    · next m1 c1 hin =>
      split at h
      · cases h
      · next m2 hrel =>
        have hsub1 : ∀ y, Free (m1, c1).1 y → Free m3 y := by
          intro y hy
          exact hsub y (deallocOuter_Free _ _ _ _ _ _ _ _ _ h y ((release_Free hrel).2 y hy))
        have := deallocInner_twice ND ns (ReadSector d leaf) (ND + 1) 0 m m3 c (m1, c1)
          ⟨by omega, hc⟩ hin hsub1
        simp only [this]


theorem readAt_ok_bounds {size : Nat} {a : List Int} {i b : Int}
    (h : readAt size a i = .ok b) : 0 ≤ i ∧ i < (size : Int) := by
  unfold readAt at h
  by_cases hr : 0 ≤ i ∧ i < (size : Int)
  · exact hr
  · simp only [hr, if_false] at h
    cases h

theorem Deallocate_twice (ND S : Nat) (hdr : FileHeader) (m m2 : BitMap) (d : Disk)
    (hpos : hdr.numBytes ≤ MaxFileSize ND S → 0 < hdr.numSectors)
    (h : Deallocate ND S hdr m d = .ok m2) :
    Deallocate ND S hdr m2 d = .error .assertion := by
  unfold Deallocate at h ⊢
  by_cases t1 : hdr.numBytes ≤ MaxFileSize ND S
  · simp only [t1, if_true] at h ⊢
    obtain ⟨n, hn⟩ : ∃ n, hdr.numSectors.toNat = n + 1 :=
      ⟨hdr.numSectors.toNat - 1, by have := hpos t1; omega⟩
    rw [hn] at h ⊢
    exact clearLoop_twice _ _ _ _ _ _ _ h (fun _ hy => hy)
  · simp only [t1, if_false] at h ⊢
    by_cases t2 : hdr.numBytes ≤ MaxFileSize2 ND S
    · simp only [t2, if_true] at h ⊢
      split at h
      · cases h
      · next s hrd =>
        have hb := readAt_ok_bounds hrd
        split at h
        · cases h
        · next m1 hleaf =>
          obtain ⟨k, hk⟩ : ∃ k, ND = k + 1 := ⟨ND - 1, by omega⟩
          cases hu : (hdr.numSectors - ((ND : Int) - 1)).toNat with
          | zero =>
            rw [hu] at hleaf
            simp only [clearLoop, Except.ok.injEq] at hleaf
            subst hleaf
            simp only [clearLoop]
            have h' : clearLoop ND hdr.dataSectors (k + 1) 0 m = .ok m2 := by
              rw [← hk]; exact h
            have := clearLoop_twice ND hdr.dataSectors k 0 m m2 m2 h' (fun _ hy => hy)
            rw [← hk] at this
            exact this
          | succ u =>
            rw [hu] at hleaf
            have := clearLoop_twice _ _ _ _ _ _ m2 hleaf (clearLoop_Free _ _ _ _ _ _ h)
            simp only [this]
    · simp only [t2, if_false] at h ⊢
      split at h
      · cases h
      · next s2 hrd2 =>
        split at h
        · cases h
        · next s3 hrd3 =>
          split at h
          · cases h
          · next m1 c1 hout =>
            split at h
            · cases h
            · next m2a hl1 =>
              have hsub2 : ∀ y, Free m2a y → Free m2 y := clearLoop_Free _ _ _ _ _ _ h
              have hsub1 : ∀ y, Free m1 y → Free m2 y :=
                fun y hy => hsub2 y (clearLoop_Free _ _ _ _ _ _ hl1 y hy)
              cases hf : (hdr.numSectors - 2 * (ND : Int)).toNat with
              | zero =>
                rw [hf] at hout
                simp only [deallocOuter, Except.ok.injEq, Prod.mk.injEq] at hout
                obtain ⟨rfl, _⟩ := hout
                simp only [deallocOuter]
                have := clearLoop_twice (ND + 2) (ReadSector d s2) (ND + 1) 0 m m2a m2 hl1 hsub2
                simp only [this]
              | succ f =>
                rw [hf] at hout
                have := deallocOuter_twice ND hdr.numSectors d (ReadSector d s3) f 0 m m2
                  (2 * (ND : Int)) (m1, c1) (by omega) hout hsub1
                simp only [this]

/-- C12, as stated, fails for an empty file: at `S = 128`, `NumDirect = 30`,
`Allocate(0)` succeeds, `Deallocate` completes, and a second `Deallocate` on the same
record completes as well: the file owns no block, so no assertion is evaluated. -/
theorem Deallocate_twice_empty_file :
    ∃ h m d, Allocate 30 128 ⟨0, 0, List.replicate 30 0⟩ (List.replicate 10 false)
        (fun _ => []) 0 = .ok (true, h, m, d) ∧
      ∃ m2, Deallocate 30 128 h m d = .ok m2 ∧ Deallocate 30 128 h m2 d = .ok m2 :=
  ⟨_, _, _, rfl, _, rfl, rfl⟩

/-- C12, amended: for `S > 0` and every header populated by a successful `Allocate` of
`fileSize > 0` bytes and then released by one completed `Deallocate`, a second
`Deallocate` on the same record (the map left by the first one, the same disk) stops at
a failed "block is marked used" assertion. -/
theorem Deallocate_second_call_asserts (ND S : Nat) (hS : 0 < S) (hdr : FileHeader)
    (freeMap : BitMap) (disk : Disk) (fileSize : Int) (h0 : 0 < fileSize)
    (hdr1 : FileHeader) (m1 : BitMap) (d1 : Disk)
    (hA : Allocate ND S hdr freeMap disk fileSize = .ok (true, hdr1, m1, d1))
    (m2 : BitMap) (hD : Deallocate ND S hdr1 m1 d1 = .ok m2) :
    Deallocate ND S hdr1 m2 d1 = .error .assertion := by
  obtain ⟨_, h2, _⟩ := Allocate_fields ND S hdr freeMap disk fileSize true hdr1 m1 d1 hA
  have hp := divRoundUp_pos fileSize S h0 (by exact_mod_cast hS)
  exact Deallocate_twice ND S hdr1 m1 m2 d1 (fun _ => by rw [h2]; omega) hD

set_option maxRecDepth 100000 in
/-- The hypotheses of `Deallocate_second_call_asserts` are met at `S = 128`,
`NumDirect = 30` by a Tier-3 file of 7900 bytes on a map of one hundred free blocks. -/
theorem Deallocate_second_call_asserts_witness :
    ((0 < 128) ∧ (0 : Int) < 7900 ∧
      Allocate 30 128 ⟨0, 0, List.replicate 30 0⟩ (List.replicate 100 false) (fun _ => []) 7900
        = .ok (true, ⟨7900, 62, (List.range 30).map (fun i => (i : Int))⟩,
            List.replicate 65 true ++ List.replicate 35 false,
            (WriteSector (WriteSector (WriteSector (fun _ => [])
              28 ((List.range 32).map (fun i => (i : Int) + 30)))
              62 ([63, 64] ++ List.replicate 30 0))
              29 (62 :: List.replicate 31 0))) ∧
      Deallocate 30 128 ⟨7900, 62, (List.range 30).map (fun i => (i : Int))⟩
          (List.replicate 65 true ++ List.replicate 35 false)
          (WriteSector (WriteSector (WriteSector (fun _ => [])
            28 ((List.range 32).map (fun i => (i : Int) + 30)))
            62 ([63, 64] ++ List.replicate 30 0))
            29 (62 :: List.replicate 31 0))
        = .ok (List.replicate 100 false)) ∧
    Deallocate 30 128 ⟨7900, 62, (List.range 30).map (fun i => (i : Int))⟩
        (List.replicate 100 false)
        (WriteSector (WriteSector (WriteSector (fun _ => [])
          28 ((List.range 32).map (fun i => (i : Int) + 30)))
          62 ([63, 64] ++ List.replicate 30 0))
          29 (62 :: List.replicate 31 0))
      = .error .assertion :=
  ⟨⟨by decide, by decide, rfl, rfl⟩,
    Deallocate_second_call_asserts 30 128 (by decide) ⟨0, 0, List.replicate 30 0⟩
      (List.replicate 100 false) (fun _ => []) 7900 (by decide) _ _ _ rfl _ rfl⟩


/-! ## The number of blocks claimed in Tier 3 -/

theorem divRoundUp_step_eq (x w : Int) (hx : w ≤ x) (hw : 0 < w) :
    divRoundUp x w = divRoundUp (x - w) w + 1 := by
  have h1 := divRoundUp_step x w hx hw
  have h2 := (divRoundUp_le_iff (x - w) w (divRoundUp (x - w) w) (by omega) hw).mp (le_refl _)
  have h3 := (divRoundUp_le_iff x w (divRoundUp (x - w) w + 1) (by omega) hw).mpr
    (by nlinarith)
  omega

theorem divRoundUp_small (x w : Int) (hx : 0 < x) (hxw : x ≤ w) : divRoundUp x w = 1 := by
  have h1 := divRoundUp_pos x w hx (by omega)
  have h2 := (divRoundUp_le_iff x w 1 (by omega) (by omega)).mpr (by omega)
  omega

theorem allocInner_run (ND : Nat) (ns : Int) (m : BitMap) (c : Int) (hc : c < ns) :
    allocInner ND ns (ND + 2) 0 (List.replicate (ND + 2) 0) m c
      = ((finds (min (ND + 2) (ns - c).toNat) m).1
            ++ List.replicate (ND + 2 - min (ND + 2) (ns - c).toNat) 0,
          (finds (min (ND + 2) (ns - c).toNat) m).2,
          c + ((min (ND + 2) (ns - c).toNat : Nat) : Int)) := by
  have h := allocInner_append ND ns (min (ND + 2) (ns - c).toNat) (ND + 2) []
    (List.replicate (min (ND + 2) (ns - c).toNat) 0)
    (List.replicate (ND + 2 - min (ND + 2) (ns - c).toNat) 0) m c (by simp) (by omega)
    (by simp) (by omega) (by simp; omega)
  have hrep : ([] : List Int) ++ List.replicate (min (ND + 2) (ns - c).toNat) 0
      ++ List.replicate (ND + 2 - min (ND + 2) (ns - c).toNat) 0
      = List.replicate (ND + 2) 0 := by
    rw [List.nil_append, List.append_replicate_replicate]
    congr 1
    omega
  rw [hrep] at h
  simpa using h

theorem allocOuter_numClear (ND : Nat) (ns : Int)
    (f i : Nat) (top : List Int) (m : BitMap) (d : Disk) (c : Int)
    (hfree : c < ns → (ns - c) + divRoundUp (ns - c) ((ND : Int) + 2) ≤ m.NumClear)
    (hf : ns - c ≤ f) (r : List Int × BitMap × Disk × Int)
    (h : allocOuter ND ns f i top m d c = .ok r) :
    r.2.1.NumClear
      = m.NumClear - (if c < ns then (ns - c) + divRoundUp (ns - c) ((ND : Int) + 2) else 0) := by
  induction f generalizing i top m d c with
  | zero =>
    simp only [allocOuter, Except.ok.injEq] at h
    subst h
    have : ¬ c < ns := by push_cast at hf; omega
    simp [this]
  | succ f ih =>
    by_cases hc : c < ns
    · have hd1 := divRoundUp_pos (ns - c) ((ND : Int) + 2) (by omega) (by omega)
      have hfr := hfree hc
      have hnb := NumClear_Find m (by omega)
      have hr : ((min (ND + 2) (ns - c).toNat : Nat) : Int) = min ((ND : Int) + 2) (ns - c) := by
        omega
      have hnf := NumClear_finds (min (ND + 2) (ns - c).toNat) m.Find.2 (by omega)
      simp only [allocOuter, hc, if_true, allocInner_run ND ns m.Find.2 c hc] at h
      split at h
      · have hstep : c + ((min (ND + 2) (ns - c).toNat : Nat) : Int) < ns →
            ((min (ND + 2) (ns - c).toNat : Nat) : Int) = (ND : Int) + 2 := by omega
        have := ih _ _ _ _ _ (by
          intro hlt
          have h1 := hstep hlt
          have h2 := divRoundUp_step (ns - c) ((ND : Int) + 2) (by omega) (by omega)
          have h3 : ns - (c + ((min (ND + 2) (ns - c).toNat : Nat) : Int))
              = ns - c - ((ND : Int) + 2) := by omega
          rw [h3, hnf, hnb]
          omega) (by push_cast at hf ⊢; omega) h
        rw [this, hnf, hnb]
        simp only [hc, if_true]
        by_cases hlt : c + ((min (ND + 2) (ns - c).toNat : Nat) : Int) < ns
        · have h1 := hstep hlt
          have h2 := divRoundUp_step_eq (ns - c) ((ND : Int) + 2) (by omega) (by omega)
          have h3 : ns - (c + ((min (ND + 2) (ns - c).toNat : Nat) : Int))
              = ns - c - ((ND : Int) + 2) := by omega
          simp only [hlt, if_true]
          rw [h3, h2]
          omega
        · have h2 := divRoundUp_small (ns - c) ((ND : Int) + 2) (by omega) (by omega)
          simp only [hlt, if_false]
          rw [h2]
          omega
      · cases h
    · simp only [allocOuter, hc, if_false, Except.ok.injEq] at h
      subst h
      simp [hc]


theorem MaxFileSize2_nonneg (ND S : Nat) : 0 ≤ MaxFileSize2 ND S := by
  unfold MaxFileSize2 PointersPerIndexBlock
  have h1 : (0 : Int) ≤ (2 * (ND : Int) + 1) * S := by positivity
  push_cast
  nlinarith

/-- C16: with `S > 0`, `NumDirect >= 2` and a header table of `NumDirect` entries, for
every `fileSize` with `MaxFileSize2 < fileSize <= MaxFileSize3` and every map with enough
free blocks for every `Find` to succeed, `Allocate` returns `TRUE` and the number of
blocks it has marked used is exactly
`numSectors + 2 + ceil((numSectors - (NumDirect-2) - PointersPerIndexBlock) / PointersPerIndexBlock)`. -/
theorem Allocate_tier3_count (ND S : Nat) (hS : 0 < S) (hND : 2 ≤ ND) (hdr : FileHeader)
    (freeMap : BitMap) (disk : Disk) (fileSize : Int) (hlen : hdr.dataSectors.length = ND)
    (ht2 : MaxFileSize2 ND S < fileSize) (ht3 : fileSize ≤ MaxFileSize3 ND S)
    (hfree : divRoundUp fileSize S + 2 + divRoundUp
      (divRoundUp fileSize S - ((ND : Int) - 2) - (PointersPerIndexBlock ND : Int))
      (PointersPerIndexBlock ND : Int) ≤ freeMap.NumClear) :
    ∃ hdr1 m1 d1, Allocate ND S hdr freeMap disk fileSize = .ok (true, hdr1, m1, d1) ∧
      freeMap.NumClear - m1.NumClear
        = divRoundUp fileSize S + 2 + divRoundUp
            (divRoundUp fileSize S - ((ND : Int) - 2) - (PointersPerIndexBlock ND : Int))
            (PointersPerIndexBlock ND : Int) := by
  have h0 : 0 ≤ fileSize := by
    have := MaxFileSize2_nonneg ND S
    omega
  have ht2n : ¬ fileSize ≤ MaxFileSize2 ND S := by omega
  have ht1 : ¬ fileSize ≤ MaxFileSize ND S := by
    have := MaxFileSize_le_MaxFileSize2 ND S
    omega
  have hlo : 2 * (ND : Int) + 1 < divRoundUp fileSize S := by
    have := (tier2_iff ND S fileSize h0 hS).not.mp ht2n
    omega
  have hmax := (tier3_iff ND S fileSize h0 hS).mp ht3
  have hP : ((PointersPerIndexBlock ND : Nat) : Int) = (ND : Int) + 2 := by
    simp [PointersPerIndexBlock]
  rw [hP] at hfree ⊢
  have h3 : divRoundUp fileSize S - ((ND : Int) - 2) - ((ND : Int) + 2)
      = divRoundUp fileSize S - 2 * (ND : Int) := by ring
  rw [h3] at hfree ⊢
  have hd0 := divRoundUp_pos (divRoundUp fileSize S - 2 * (ND : Int)) ((ND : Int) + 2)
    (by omega) (by omega)
  have hc : ¬ freeMap.NumClear < divRoundUp fileSize S := by omega
  have hcb1 := countBumps_below ((ND : Int) - 2) ND 0 (by push_cast; omega) (by push_cast; omega)
  have hcb2 := countBumps_true (ND + 2) 0
  have hcnt : (0 : Int) + countBumps (fun i => decide ((i : Int) < (ND : Int) - 2)) ND 0
      + countBumps (fun _ => true) (ND + 2) 0 = 2 * (ND : Int) := by
    rw [hcb1, hcb2]; push_cast; ring
  have hTown : Owned (finds ND freeMap).2 ((finds ND freeMap).1 ++ []) :=
    Owned_finds ND freeMap [] (by omega) ⟨List.nodup_nil, by simp⟩
  have hnc1 := NumClear_finds ND freeMap (by omega)
  have hLown := Owned_finds (ND + 2) (finds ND freeMap).2 _ (by push_cast; omega) hTown
  have hnc2 := NumClear_finds (ND + 2) (finds ND freeMap).2 (by push_cast; omega)
  have hfree2 : 2 * (ND : Int) < divRoundUp fileSize S →
      (divRoundUp fileSize S - 2 * (ND : Int))
        + divRoundUp (divRoundUp fileSize S - 2 * (ND : Int)) ((ND : Int) + 2)
        ≤ (finds (ND + 2) (finds ND freeMap).2).2.NumClear := by
    intro _
    rw [hnc2, hnc1]
    push_cast
    omega
  have hra := readAt_ok ND (finds ND freeMap).1 ((ND : Int) - 2) (by omega) (by omega)
  have hrb := readAt_ok ND (finds ND freeMap).1 ((ND : Int) - 1) (by omega) (by omega)
  obtain ⟨G, top1, m3, d3, c3, hrun, _⟩ :=
    allocOuter_spec ND (divRoundUp fileSize S) hmax
      (divRoundUp fileSize S - 2 * (ND : Int)).toNat 0 (List.replicate (ND + 2) 0)
      (finds (ND + 2) (finds ND freeMap).2).2
      (WriteSector disk ((finds ND freeMap).1.getD ((ND : Int) - 2).toNat 0)
        (finds (ND + 2) (finds ND freeMap).2).1)
      (2 * (ND : Int)) _ (by omega) (by intro _; simp) (by simp) hfree2 hLown
  have hcount := allocOuter_numClear ND (divRoundUp fileSize S) _ _ _ _ _ _ hfree2 (by omega)
    _ hrun
  refine ⟨⟨fileSize, divRoundUp fileSize S, (finds ND freeMap).1⟩, m3,
    WriteSector d3 ((finds ND freeMap).1.getD ((ND : Int) - 1).toNat 0) top1, ?_, ?_⟩
  · unfold Allocate
    simp only [hc, if_false, zeroLoop_eq ND hdr.dataSectors hlen, ht1, ht2n, ht3, if_true]
    rw [findCountLoop_eq ND _ _ freeMap 0 (by simp)]
    simp only []
    rw [findCountLoop_eq (ND + 2) _ _ _ _ (by simp)]
    simp only [hcnt, hra, hrun, hrb]
  · have hlt : 2 * (ND : Int) < divRoundUp fileSize S := by omega
    simp only [hlt, if_true] at hcount
    rw [hnc2, hnc1] at hcount
    push_cast at hcount
    omega

set_option maxRecDepth 100000 in
/-- The hypotheses of `Allocate_tier3_count` are met at `S = 128`, `NumDirect = 30` by a
file of 12000 bytes (94 sectors: 28 direct, 32 in the first leaf, 32 and 2 in two
second-level leaves) on a map of exactly 98 free blocks. -/
theorem Allocate_tier3_count_witness :
    ((0 < 128) ∧ 2 ≤ 30 ∧ (⟨0, 0, List.replicate 30 0⟩ : FileHeader).dataSectors.length = 30 ∧
      MaxFileSize2 30 128 < 12000 ∧ (12000 : Int) ≤ MaxFileSize3 30 128 ∧
      divRoundUp 12000 ((128 : Nat) : Int) + 2 + divRoundUp
        (divRoundUp 12000 ((128 : Nat) : Int) - (((30 : Nat) : Int) - 2)
          - (PointersPerIndexBlock 30 : Int))
        (PointersPerIndexBlock 30 : Int) ≤ BitMap.NumClear (List.replicate 98 false)) ∧
    ∃ hdr1 m1 d1, Allocate 30 128 ⟨0, 0, List.replicate 30 0⟩ (List.replicate 98 false)
        (fun _ => []) 12000 = .ok (true, hdr1, m1, d1) ∧
      BitMap.NumClear (List.replicate 98 false) - m1.NumClear
        = divRoundUp 12000 ((128 : Nat) : Int) + 2 + divRoundUp
            (divRoundUp 12000 ((128 : Nat) : Int) - (((30 : Nat) : Int) - 2)
              - (PointersPerIndexBlock 30 : Int))
            (PointersPerIndexBlock 30 : Int) :=
  ⟨⟨by decide, by decide, rfl, by decide, by decide, by decide⟩,
    Allocate_tier3_count 30 128 (by decide) (by decide) ⟨0, 0, List.replicate 30 0⟩
      (List.replicate 98 false) (fun _ => []) 12000 rfl (by decide) (by decide) (by decide)⟩

end Nachos
